import Mathlib

/-!
Verification model of the document-chat retrieval pipeline
(`src/lib/db.ts`, `src/lib/vectorSearchService.ts`, `src/lib/chatService.ts`,
`src/lib/openaiProvider.ts`, `src/lib/geminiProvider.ts`, and the document
processor / provider-based chat service modules).

JavaScript strings are modelled as `List Char` (the sources only ever face
ASCII in the properties checked here, so UTF-16 length equals character
count), numbers appearing as similarity scores as `ℚ`, and the browser
database tables as Lean lists kept in primary-key iteration order (Dexie's
`toArray` enumerates a table in primary-key order, and an index query
returns its matches in index order).  Network and PDF-page results from
external libraries are inputs of the model (`Except`/sum types), never
stubs of repository code.
-/

set_option maxRecDepth 100000
set_option linter.unusedVariables false

namespace DocChat

/-! ## Characters and JS string helpers -/

/-- The whitespace class used by JavaScript `trim`, `\s` in the regexes of
the sources, restricted to the ASCII whitespace the properties exercise. -/
def isWS (c : Char) : Bool :=
  c = ' ' ∨ c = '\t' ∨ c = '\n' ∨ c = '\r' ∨ c = '\x0b' ∨ c = '\x0c'

/-- A sentence terminator, the class `[.!?]` of `createChunks`. -/
def isTerm (c : Char) : Bool :=
  c = '.' ∨ c = '!' ∨ c = '?'

def isDigitCh (c : Char) : Bool :=
  '0' ≤ c ∧ c ≤ '9'

/-- JavaScript `String.prototype.trim`: drop whitespace from both ends. -/
def jsTrim (s : List Char) : List Char :=
  ((s.dropWhile isWS).reverse.dropWhile isWS).reverse

/-- `pat.isPrefixOf hay` over chars with Bool output (JS startsWith). -/
def isPrefixCh : List Char → List Char → Bool
  | [], _ => true
  | _ :: _, [] => false
  | a :: as, b :: bs => a = b && isPrefixCh as bs

/-- JavaScript `String.prototype.indexOf` for a literal pattern: the first
index where `pat` occurs in `hay`, `-1` when it does not occur. -/
def indexOfSub : List Char → List Char → Int
  | hay, pat =>
    match hay with
    | [] => if isPrefixCh pat [] then 0 else -1
    | h :: t =>
      if isPrefixCh pat (h :: t) then 0
      else
        match indexOfSub t pat with
        | -1 => -1
        | r => r + 1

/-- JavaScript `String.prototype.includes` for a literal pattern. -/
def containsSub (hay pat : List Char) : Bool :=
  indexOfSub hay pat ≠ -1

/-- ASCII lower-casing, JS `toLowerCase` on the inputs exercised here. -/
def toLowerCh (s : List Char) : List Char :=
  s.map Char.toLower

/-! ## Regex split helpers of `DocumentProcessor.createChunks`

Each splitter is written with explicit fuel (any fuel of at least the
input's length computes the split); the top-level wrappers pass
`s.length + 1`. -/

/-- Length of a match of `/Page \d+:/` at the head of `s`, if any. -/
def matchPageMarker (s : List Char) : Option Nat :=
  if isPrefixCh ("Page ".data) s then
    let rest := s.drop 5
    let ds := rest.takeWhile isDigitCh
    if ds.length ≠ 0 ∧ isPrefixCh [':'] (rest.drop ds.length) then
      some (5 + ds.length + 1)
    else none
  else none

/-- `content.split(/Page \d+:/)`: split at each leftmost, non-overlapping
match of the page-marker pattern. -/
def splitPagesAux : Nat → List Char → List Char → List (List Char)
  | 0, s, acc => [acc.reverse ++ s]
  | fuel + 1, s, acc =>
    match s with
    | [] => [acc.reverse]
    | c :: rest =>
      match matchPageMarker (c :: rest) with
      | some n => acc.reverse :: splitPagesAux fuel ((c :: rest).drop n) []
      | none => splitPagesAux fuel rest (c :: acc)

def splitPages (s : List Char) : List (List Char) :=
  splitPagesAux (s.length + 1) s []

/-- Length of a match of `/\n\s*\n/` at the head of `s`: a newline, then
the greedy-longest whitespace run that still leaves a final newline. -/
def matchParaBreak (s : List Char) : Option Nat :=
  match s with
  | '\n' :: rest =>
    let w := rest.takeWhile isWS
    match (w.enum.filter (fun p => p.2 = '\n')).getLast? with
    | some (j, _) => some (j + 2)
    | none => none
  | _ => none

/-- `content.split(/\n\s*\n/)`: the paragraph split of `createChunks`. -/
def splitParasAux : Nat → List Char → List Char → List (List Char)
  | 0, s, acc => [acc.reverse ++ s]
  | fuel + 1, s, acc =>
    match s with
    | [] => [acc.reverse]
    | c :: rest =>
      match matchParaBreak (c :: rest) with
      | some n => acc.reverse :: splitParasAux fuel ((c :: rest).drop n) []
      | none => splitParasAux fuel rest (c :: acc)

def splitParas (s : List Char) : List (List Char) :=
  splitParasAux (s.length + 1) s []

/-- `content.match(/[^.!?]+[.!?]+/g) || []`: every maximal run of
non-terminators (at least one) followed by its maximal run of terminators
(at least one); text before a leading terminator or after the last
terminator never matches. -/
def sentenceSplitAux : Nat → List Char → List (List Char)
  | 0, _ => []
  | fuel + 1, s =>
    match s with
    | [] => []
    | c :: rest =>
      if isTerm c then sentenceSplitAux fuel rest
      else
        let body := (c :: rest).takeWhile (fun x => ¬ isTerm x)
        let after := (c :: rest).drop body.length
        let terms := after.takeWhile isTerm
        if terms.length = 0 then []
        else (body ++ terms) :: sentenceSplitAux fuel (after.drop terms.length)

def sentenceSplit (s : List Char) : List (List Char) :=
  sentenceSplitAux (s.length + 1) s

/-- `query.toLowerCase().split(/\s+/)` keyword tokenisation of
`ChatService.searchRelevantChunks` (before lower-casing is applied by the
caller): maximal whitespace runs separate the tokens, and JS `split` keeps
the empty token that a leading or trailing separator produces. -/
def splitWSGo : List Char → List Char → Bool → List (List Char)
  | [], acc, _ => [acc.reverse]
  | c :: rest, acc, lastWS =>
    if isWS c then
      if lastWS then splitWSGo rest acc true
      else acc.reverse :: splitWSGo rest [] true
    else splitWSGo rest (c :: acc) false

def splitWS (s : List Char) : List (List Char) :=
  splitWSGo s [] false

/-! ## The chunk data model (`ChunkRecord` of `db.ts`) -/

inductive ChunkType where
  | paragraph
  | sentenceGroup
  | fallback
deriving DecidableEq

structure ChunkPos where
  start : Int
  stop : Int
deriving DecidableEq

/-- The metadata object `createChunks` writes: an optional page number, an
optional `{start, end}` position, and the `chunkType` tag. -/
structure ChunkMeta where
  pageNumber : Option Nat
  position : Option ChunkPos
  chunkType : ChunkType
deriving DecidableEq

structure Chunk where
  id : String
  documentId : String
  content : List Char
  metadata : ChunkMeta
deriving DecidableEq

/-- The placeholder content of the guaranteed fallback chunk. -/
def fallbackPlaceholder : List Char :=
  "[No extractable text content]".data

/-! ## `DocumentProcessor.createChunks`

`uuidv4()` draws a fresh identifier on every push; the model threads an
identifier supply `uuid : Nat → String` and a counter, consuming `uuid k`,
`uuid (k+1)`, … in push order.  Everything else is a pure function of
`(documentId, content, fileType)`, exactly as in the source. -/

/-- The chunk one paragraph push emits. -/
def paraChunkOf (uuid : Nat → String) (k : Nat) (docId : String)
    (pageNumber : Option Nat) (base para : List Char) : Chunk :=
  { id := uuid k, documentId := docId, content := jsTrim para,
    metadata :=
      { pageNumber := pageNumber
        position := some { start := indexOfSub base para,
                           stop := indexOfSub base para + para.length }
        chunkType := .paragraph } }

/-- One paragraph loop of `createChunks` (used for the whole text of a
non-pdf document with `pageNumber = none`, and once per page segment of a
pdf with `pageNumber = some pageIndex`); `base` is the string the source
runs `indexOf` against.  Skips paragraphs whose trimmed length is below
10, otherwise pushes a `paragraph` chunk with trimmed content. -/
def pushParas (uuid : Nat → String) (docId : String) (pageNumber : Option Nat)
    (base : List Char) (paras : List (List Char)) (st : Nat × List Chunk) :
    Nat × List Chunk :=
  paras.foldl
    (fun st para =>
      if (jsTrim para).length < 10 then st
      else (st.1 + 1, st.2 ++ [paraChunkOf uuid st.1 docId pageNumber base para]))
    st

/-- The paragraph tier of `createChunks`: pdf documents are split on the
page markers first (skipping whitespace-only page segments), every other
kind is paragraph-split as one body. -/
def paragraphChunks (uuid : Nat → String) (k : Nat) (docId : String)
    (content : List Char) (fileType : String) : List Chunk :=
  if fileType = "pdf" then
    ((splitPages content).enum.foldl
      (fun st page =>
        if jsTrim page.2 = [] then st
        else pushParas uuid docId (some page.1) page.2 (splitParas page.2) st)
      (k, [])).2
  else
    (pushParas uuid docId none content (splitParas content) (k, [])).2

/-- State of the sentence-group loop: next uuid index, chunks pushed so
far, `currentChunk`, `chunkStart`. -/
structure SGState where
  k : Nat
  chunks : List Chunk
  currentChunk : List Char
  chunkStart : Int
deriving DecidableEq

/-- The chunk a sentence-group push emits from the loop state. -/
def sgChunk (uuid : Nat → String) (docId : String) (st : SGState) : Chunk :=
  { id := uuid st.k, documentId := docId,
    content := jsTrim st.currentChunk,
    metadata :=
      { pageNumber := none
        position := some { start := st.chunkStart,
                           stop := st.chunkStart + st.currentChunk.length }
        chunkType := .sentenceGroup } }

/-- One iteration of `sentences.forEach` in the densification pass. -/
def sgStep (uuid : Nat → String) (docId : String) (content : List Char)
    (st : SGState) (sentence : List Char) : SGState :=
  if 500 < st.currentChunk.length + sentence.length then
    let st' :=
      if st.currentChunk = [] then st
      else { st with k := st.k + 1, chunks := st.chunks ++ [sgChunk uuid docId st] }
    { st' with currentChunk := sentence, chunkStart := indexOfSub content sentence }
  else
    { st with currentChunk := st.currentChunk ++ ' ' :: sentence }

/-- The sentence-group densification pass of `createChunks`: fold the
sentence matches through the greedy grouping loop and push the last
non-empty `currentChunk`. -/
def sentenceChunks (uuid : Nat → String) (k : Nat) (docId : String)
    (content : List Char) : List Chunk :=
  let st := (sentenceSplit content).foldl (sgStep uuid docId content)
    { k := k, chunks := [], currentChunk := [], chunkStart := 0 }
  if st.currentChunk = [] then st.chunks
  else st.chunks ++ [sgChunk uuid docId st]

/-- The fallback chunk pushed when no chunk was produced:
`content.trim() || "[No extractable text content]"`, tagged `fallback`. -/
def fallbackChunk (uuid : Nat → String) (k : Nat) (docId : String)
    (content : List Char) : Chunk :=
  { id := uuid k, documentId := docId,
    content := if jsTrim content = [] then fallbackPlaceholder else jsTrim content,
    metadata := { pageNumber := none, position := none, chunkType := .fallback } }

/-- `DocumentProcessor.createChunks(documentId, content, fileType)`. -/
def createChunks (uuid : Nat → String) (k : Nat) (docId : String)
    (content : List Char) (fileType : String) : List Chunk :=
  let cs1 := paragraphChunks uuid k docId content fileType
  let cs2 :=
    if cs1.length < 5 ∧ 1000 < content.length then
      cs1 ++ sentenceChunks uuid (k + cs1.length) docId content
    else cs1
  if cs2.length = 0 then [fallbackChunk uuid k docId content] else cs2

/-- A chunk without its freshly generated identifier: what is a pure
function of `(documentId, content, fileType)`. -/
def stripId (ch : Chunk) : String × List Char × ChunkMeta :=
  (ch.documentId, ch.content, ch.metadata)

/-! ## The store (`Database` of `db.ts`)

Tables are lists kept in primary-key order; `put` is Dexie's upsert by
key, `delete`/`bulkDelete` remove by key, `toArray` is the list itself. -/

/-- The open metadata map of a document; only the `context` tag read by
`searchRelevantChunks` is modelled. -/
structure DocMeta where
  context : Option String
deriving DecidableEq

structure DocumentRecord where
  id : String
  name : String
  content : List Char
  type : String
  rawContent : Option (List Char)
  metadata : Option DocMeta
  uploadDate : String
deriving DecidableEq

structure EmbeddingRecord where
  id : String
  chunkId : String
  vector : List ℚ
  tokens : List (List Char)
deriving DecidableEq

structure DB where
  documents : List DocumentRecord
  chunks : List Chunk
  embeddings : List EmbeddingRecord
deriving DecidableEq

/-- Dexie `Table.put`: replace the record carrying the same key, append a
record with a fresh key. -/
def putBy {α : Type} (key : α → String) (x : α) (t : List α) : List α :=
  if t.any (fun y => decide (key y = key x)) then
    t.map (fun y => if key y = key x then x else y)
  else t ++ [x]

/-- The live document-id set read at the top of the orphan sweep. -/
def liveDocumentIds (db : DB) : List String :=
  db.documents.map (fun d => d.id)

/-- `orphanedChunkIds` of the sweep: ids of chunks whose `documentId` is
not a live document id. -/
def orphanedChunkIds (db : DB) : List String :=
  (db.chunks.filter (fun c => decide (c.documentId ∉ liveDocumentIds db))).map
    (fun c => c.id)

/-- The chunks table after the sweep's `bulkDelete(orphanedChunkIds)`. -/
def sweptChunks (db : DB) : List Chunk :=
  db.chunks.filter (fun c => decide (c.id ∉ orphanedChunkIds db))

/-- `orphanedEmbeddingIds` of the sweep, computed against the reloaded
chunk ids. -/
def orphanedEmbeddingIds (db : DB) : List String :=
  (db.embeddings.filter
    (fun e => decide (e.chunkId ∉ (sweptChunks db).map (fun c => c.id)))).map
    (fun e => e.id)

/-- `Database.removeOrphanedChunksAndEmbeddings`: bulk-delete the chunks
whose `documentId` is not a live document id, reload the chunk ids, then
bulk-delete the embeddings whose `chunkId` is not among them. -/
def removeOrphanedChunksAndEmbeddings (db : DB) : DB :=
  { db with chunks := sweptChunks db,
            embeddings := db.embeddings.filter
              (fun e => decide (e.id ∉ orphanedEmbeddingIds db)) }

/-- `Database.addDocument`: `documents.put(...)` then the orphan sweep. -/
def addDocument (d : DocumentRecord) (db : DB) : DB :=
  removeOrphanedChunksAndEmbeddings { db with documents := putBy (fun x => x.id) d db.documents }

/-- `Database.addChunks`: `chunks.bulkPut(chunks)` then the orphan sweep. -/
def addChunks (cs : List Chunk) (db : DB) : DB :=
  removeOrphanedChunksAndEmbeddings
    { db with chunks := cs.foldl (fun t c => putBy (fun x => x.id) c t) db.chunks }

/-- `Database.addEmbeddings`: `embeddings.bulkPut(...)` then the sweep. -/
def addEmbeddings (es : List EmbeddingRecord) (db : DB) : DB :=
  removeOrphanedChunksAndEmbeddings
    { db with embeddings := es.foldl (fun t e => putBy (fun x => x.id) e t) db.embeddings }

/-- `Database.removeDocument`: `documents.delete(documentId)` then the
orphan sweep. -/
def removeDocument (documentId : String) (db : DB) : DB :=
  removeOrphanedChunksAndEmbeddings
    { db with documents := db.documents.filter (fun d => decide (d.id ≠ documentId)) }

/-- `Database.getChunks(documentId)`: the chunks of one document, in table
order. -/
def getChunks (documentId : String) (db : DB) : List Chunk :=
  db.chunks.filter (fun c => decide (c.documentId = documentId))

/-- Referential integrity of the store: every chunk references a live
document and every embedding references a live chunk. -/
def StoreInv (db : DB) : Prop :=
  (∀ c ∈ db.chunks, c.documentId ∈ db.documents.map (fun d => d.id)) ∧
  (∀ e ∈ db.embeddings, e.chunkId ∈ db.chunks.map (fun c => c.id))

/-! ## Stable sort

JavaScript `Array.prototype.sort` is stable; with the comparator
`(a, b) => b.score - a.score` it orders descending by score keeping the
original relative order of equal scores.  `sortS r` is the stable sort
that puts `x` before `y` exactly when `r x y` (so for the descending
comparator, `r x y = (score y ≤ score x)`). -/

def insertS {α : Type} (r : α → α → Bool) (x : α) : List α → List α
  | [] => [x]
  | y :: ys => if r x y then x :: y :: ys else y :: insertS r x ys

def sortS {α : Type} (r : α → α → Bool) : List α → List α
  | [] => []
  | a :: l => insertS r a (sortS r l)

/-! ## `Database.searchSimilarChunks` (the placeholder scorer of `db.ts`)

Scores every stored embedding with the constant `0.5`, sorts by that
score descending (stable), takes the first `limit`, resolves each
embedding's chunk with `chunks.get(chunkId)` and drops missing ones
(`filter(Boolean)`). -/

def dbSearchSimilarChunks (db : DB) (queryVector : List ℚ) (limit : Nat) : List Chunk :=
  let allEmbeddings := db.embeddings
  let results :=
    (sortS (fun a b => decide (b.2 ≤ a.2))
      (allEmbeddings.map (fun e => (e, (0.5 : ℚ))))).take limit
  ((results.map (fun r => db.chunks.find? (fun c => decide (c.id = r.1.chunkId)))).filterMap id)

/-! ## `VectorSearchService` (`vectorSearchService.ts`)

The universal-sentence-encoder is an external model; the query's embedding
vector is an input of the model of `searchSimilarChunks`.  `Math.sqrt` is
modelled by the exact square root on the perfect-square rationals the
verified properties evaluate it at (`ratSqrt` below agrees with the real
square root whenever numerator and denominator are perfect squares). -/

/-- Floor square root by linear search (kernel-computable). -/
def natSqrtLin (n : Nat) : Nat :=
  (((List.range (n + 1)).filter (fun k => k * k ≤ n)).getLastD 0)

/-- Square root on `ℚ`, exact on perfect squares. -/
def ratSqrt (q : ℚ) : ℚ :=
  (natSqrtLin q.num.toNat : ℚ) / (natSqrtLin q.den : ℚ)

/-- `vecA.reduce((sum, a, idx) => sum + a * vecB[idx], 0)` (the service is
only ever applied to vectors of the store's fixed dimensionality; the
model reads a missing coordinate as 0). -/
def dotProduct : List ℚ → List ℚ → ℚ
  | [], _ => 0
  | a :: as, bs => a * bs.headD 0 + dotProduct as bs.tail

/-- `vec.reduce((sum, a) => sum + a * a, 0)`. -/
def sumSquares : List ℚ → ℚ
  | [] => 0
  | a :: as => a * a + sumSquares as

/-- `VectorSearchService.cosineSimilarity`: dot product over the product
of the magnitudes. -/
def cosineSimilarity (vecA vecB : List ℚ) : ℚ :=
  dotProduct vecA vecB / (ratSqrt (sumSquares vecA) * ratSqrt (sumSquares vecB))

/-- The chunk ids of the `limit` highest-similarity embeddings, in rank
order: the `topEmbeddings.map(e => e.chunkId)` of the source. -/
def topChunkIds (db : DB) (queryVector : List ℚ) (limit : Nat) : List String :=
  (((sortS (fun a b => decide (b.2 ≤ a.2))
      (db.embeddings.map (fun e => (e, cosineSimilarity queryVector e.vector)))).take
    limit).map (fun r => r.1.chunkId))

/-- `VectorSearchService.searchSimilarChunks` with the query's embedding
vector as input: score all stored embeddings by cosine similarity, sort
descending (stable), take the first `limit`, then resolve the retained
chunk ids with `db.chunks.where('id').anyOf(chunkIds).toArray()` — a Dexie
index query, which returns the matching records in the order of the `id`
index (table order), not in rank order. -/
def vsSearchSimilarChunks (db : DB) (queryVector : List ℚ) (limit : Nat) : List Chunk :=
  let chunkIds := topChunkIds db queryVector limit
  db.chunks.filter (fun c => decide (c.id ∈ chunkIds))

/-- The similarity score backing a returned chunk: the score of the first
stored embedding that owns it (for the claim that output is ordered by
similarity). -/
def chunkSim (db : DB) (queryVector : List ℚ) (c : Chunk) : ℚ :=
  match db.embeddings.find? (fun e => decide (e.chunkId = c.id)) with
  | some e => cosineSimilarity queryVector e.vector
  | none => 0

/-! ## The LLM providers (`openaiProvider.ts`, `geminiProvider.ts`,
duplicated inside `chatService.ts`)

The network is external: each operation's model takes the attempt's
outcome (`Except.ok` with the parsed response, `Except.error` with the
thrown error's message — any network, auth, rate-limit or parsing failure
lands in the single `catch` of the source).  An outcome of the model is a
returned value: none of the four operations re-raises. -/

structure LLMModel where
  id : String
  name : String
  provider : String
deriving DecidableEq

/-- One entry of OpenAI's `/v1/models` response as the source reads it. -/
structure RemoteOpenAIModel where
  id : String
  created : Int
deriving DecidableEq

/-- One entry of Gemini's model-listing response as the source reads it. -/
structure RemoteGeminiModel where
  name : String
  displayName : String
  supportedGenerationMethods : List String
deriving DecidableEq

/-- The static default list returned when fetching OpenAI models fails. -/
def openaiDefaultModels : List LLMModel :=
  [{ id := "gpt-4o", name := "GPT-4o", provider := "openai" },
   { id := "gpt-4-turbo", name := "GPT-4 Turbo", provider := "openai" },
   { id := "gpt-3.5-turbo", name := "GPT-3.5 Turbo", provider := "openai" }]

/-- The static default list returned when fetching Gemini models fails
(also the hardcoded list `getGeminiModels` of `chatService.ts`). -/
def geminiDefaultModels : List LLMModel :=
  [{ id := "gemini-1.5-flash", name := "Gemini 1.5 Flash", provider := "gemini" },
   { id := "gemini-1.5-pro", name := "Gemini 1.5 Pro", provider := "gemini" },
   { id := "gemini-1.0-pro", name := "Gemini 1.0 Pro", provider := "gemini" }]

/-- `formatModelName` of the OpenAI provider. -/
def formatModelName (modelId : String) : String :=
  if modelId = "gpt-4o" then "GPT-4o"
  else if modelId = "gpt-4-turbo" then "GPT-4 Turbo"
  else if modelId = "gpt-4" then "GPT-4"
  else if modelId = "gpt-3.5-turbo" then "GPT-3.5 Turbo"
  else modelId

/-- The `chatModels.findIndex / splice / unshift` step: move the `gpt-4o`
entry to the front if present. -/
def moveGpt4oFront (models : List LLMModel) : List LLMModel :=
  match models.findIdx? (fun m => decide (m.id = "gpt-4o")) with
  | none => models
  | some i =>
    match models.get? i with
    | none => models
    | some m => m :: models.eraseIdx i

/-- `OpenAIProvider.fetchModels` (same body as
`ChatService.fetchOpenAIModels`): on success filter to chat models, sort
newest first (stable), map to the `LLMModel` shape and put `gpt-4o`
first; on any failure return the static default list. -/
def openaiFetchModels (outcome : Except String (List RemoteOpenAIModel)) : List LLMModel :=
  match outcome with
  | .error _ => openaiDefaultModels
  | .ok data =>
    let chatModels :=
      ((sortS (fun a b => decide (b.created ≤ a.created))
        (data.filter (fun m =>
          containsSub m.id.data "gpt".data &&
          !containsSub m.id.data "instruct".data &&
          !containsSub m.id.data "-vision-".data &&
          !containsSub m.id.data "ft-".data))).map
        (fun m => { id := m.id, name := formatModelName m.id, provider := "openai" }))
    moveGpt4oFront chatModels

/-- `GeminiProvider.fetchModels`: on success keep the models supporting
`generateContent`; on any failure return the static default list. -/
def geminiFetchModels (outcome : Except String (List RemoteGeminiModel)) : List LLMModel :=
  match outcome with
  | .error _ => geminiDefaultModels
  | .ok data =>
    (data.filter (fun m => m.supportedGenerationMethods.contains "generateContent")).map
      (fun m => { id := m.name, name := m.displayName, provider := "gemini" })

/-- The fallback answer of `OpenAIProvider.generateAnswer`'s catch. -/
def openaiFallbackAnswer (err : String) : String :=
  "I encountered an error while processing your query with OpenAI. " ++
  "Please check your API key and try again. Error details: " ++ err

/-- The fallback answer of `GeminiProvider.generateAnswer`'s catch. -/
def geminiFallbackAnswer (err : String) : String :=
  "I encountered an error while processing your query with Google Gemini. " ++
  "Please check your API key and try again. Error details: " ++ err

/-- `OpenAIProvider.generateAnswer`: the generated text on success, the
descriptive fallback string on any failure — never a raised error. -/
def openaiGenerateAnswer (outcome : Except String String) : String :=
  match outcome with
  | .ok answer => answer
  | .error err => openaiFallbackAnswer err

/-- `GeminiProvider.generateAnswer`: likewise. -/
def geminiGenerateAnswer (outcome : Except String String) : String :=
  match outcome with
  | .ok answer => answer
  | .error err => geminiFallbackAnswer err

/-! ## `ChatService` (`chatService.ts`: the keyword-retrieval orchestrator)

Ambient state (API keys, active provider and model, fetched model list)
is an explicit configuration record; the network is an environment of
outcomes.  `ProcessResult.providerCalls` counts the outbound provider
network calls the run performs. -/

inductive ProviderKind where
  | openai
  | gemini
deriving DecidableEq

structure ChatConfig where
  openaiApiKey : Option String
  geminiApiKey : Option String
  activeProvider : ProviderKind
  activeModel : Option String
  contextPrompt : List Char
  availableModels : List LLMModel
deriving DecidableEq

structure NetEnv where
  openaiModels : Except String (List RemoteOpenAIModel)
  openaiChat : Except String String
  geminiChat : Except String String

/-- The `context` tag of a document, `doc.metadata?.context`. -/
def docContext (d : DocumentRecord) : Option String :=
  d.metadata.bind (fun m => m.context)

/-- The context-specific bonus keyword lists of `searchRelevantChunks`. -/
def bonusKeywords (contextId : String) : List (List Char) :=
  if contextId = "pensions" then
    ["pension", "transfer", "value", "scheme", "benefit", "retirement",
     "annuity", "contribution", "fund"].map String.data
  else if contextId = "university" then
    ["assessment", "grade", "essay", "criteria", "academic", "research",
     "study", "analysis", "conclusion"].map String.data
  else if contextId = "legal" then
    ["contract", "agreement", "clause", "party", "legal", "law",
     "obligation", "rights", "liability"].map String.data
  else if contextId = "medical" then
    ["patient", "diagnosis", "treatment", "doctor", "hospital",
     "medication", "symptom", "condition", "health"].map String.data
  else []

/-- The keyword score of one chunk: +1 per query keyword contained in the
lower-cased content, +2 more when the active context's bonus list holds
that keyword. -/
def scoreChunk (contextId : Option String) (keywords : List (List Char))
    (c : Chunk) : Nat :=
  keywords.foldl
    (fun score kw =>
      if containsSub (toLowerCh c.content) kw then
        score + 1 +
        (match contextId with
         | some ctx => if (bonusKeywords ctx).contains kw then 2 else 0
         | none => 0)
      else score)
    0

/-- `ChatService.searchRelevantChunks` (the keyword retrieval of
`chatService.ts`): restrict to the context's documents when a non-empty
context id is supplied, gather their chunks, score by keyword matches,
sort descending (stable), keep positive scores, take 5. -/
def searchRelevantChunks (docs : List DocumentRecord) (chunks : List Chunk)
    (query : List Char) (contextId : Option String) : List Chunk :=
  if docs.length = 0 then []
  else
    let filteredDocuments :=
      match contextId with
      | some ctx => if ctx = "" then docs else docs.filter (fun d => decide (docContext d = some ctx))
      | none => docs
    if filteredDocuments.length = 0 then []
    else
      let allChunks : List Chunk :=
        (filteredDocuments.map
          (fun d => chunks.filter (fun c => decide (c.documentId = d.id)))).flatten
      if allChunks.length = 0 then []
      else
        let keywords := splitWS (toLowerCh query)
        let scoredChunks := allChunks.map (fun c => (c, scoreChunk contextId keywords c))
        ((((sortS (fun a b => decide (b.2 ≤ a.2)) scoredChunks).filter
            (fun x => decide (0 < x.2))).take 5).map (fun x => x.1))

/-- The fixed empty-retrieval answer of `processQuery`. -/
def noRelevantInfoMsg : String :=
  "I couldn't find any relevant information in the uploaded documents. " ++
  "Please try a different query or upload more documents."

def openaiKeyMissingMsg : String :=
  "OpenAI API key is not set. Please set it in the settings."

def geminiKeyMissingMsg : String :=
  "Google Gemini API key is not set. Please set it in the settings."

/-- One entry of the `sources` list `processQuery` returns. -/
structure SourceEntry where
  documentId : String
  documentName : String
  content : List Char
  metadata : ChunkMeta
deriving DecidableEq

/-- The source entry built for one retrieved chunk: the owning document's
name, or `'Unknown document'` when the lookup fails. -/
def sourceOf (docs : List DocumentRecord) (c : Chunk) : SourceEntry :=
  { documentId := c.documentId
    documentName :=
      match docs.find? (fun d => decide (d.id = c.documentId)) with
      | some d => d.name
      | none => "Unknown document"
    content := c.content
    metadata := c.metadata }

structure ProcessResult where
  answer : String
  sources : List SourceEntry
  providerCalls : Nat
deriving DecidableEq

/-- `ChatService.fetchAvailableModels` of `chatService.ts`: fetch the
active provider's models when its key is set (one network call for
OpenAI, none for the hardcoded Gemini list), remember them, and select
the first as active model when none is selected.  Returns the updated
configuration and the number of provider network calls made. -/
def fetchAvailableModels (cfg : ChatConfig) (env : NetEnv) : ChatConfig × Nat :=
  let fetched : List LLMModel × Nat :=
    if cfg.activeProvider = .openai ∧ cfg.openaiApiKey ≠ none then
      (openaiFetchModels env.openaiModels, 1)
    else if cfg.activeProvider = .gemini ∧ cfg.geminiApiKey ≠ none then
      (geminiDefaultModels, 0)
    else ([], 0)
  let cfg1 := { cfg with availableModels := fetched.1 }
  let cfg2 :=
    if cfg1.availableModels.length ≠ 0 ∧ cfg1.activeModel = none then
      match cfg1.availableModels with
      | [] => cfg1
      | m :: _ => { cfg1 with activeModel := some m.id }
    else cfg1
  (cfg2, fetched.2)

/-- The generation call of `ChatService.generateAnswer`, dispatched on
the active provider (the grounding-prompt text is assembled by the source
before this call; no verified claim reads it, so the model keeps only the
call and its outcome). -/
def dispatchGenerate (cfg : ChatConfig) (env : NetEnv) : String :=
  match cfg.activeProvider with
  | .openai => openaiGenerateAnswer env.openaiChat
  | .gemini => geminiGenerateAnswer env.geminiChat

/-- `ChatService.processQuery` of `chatService.ts`: precondition checks
(API key of the active provider, an active model — fetching models to
pick a default when none is set), retrieval, the empty-retrieval
short-circuit, source resolution and the provider generation call. -/
def processQuery (cfg : ChatConfig) (docs : List DocumentRecord)
    (chunks : List Chunk) (env : NetEnv) (query : List Char)
    (contextId : Option String) : Except String ProcessResult :=
  if cfg.activeProvider = .openai ∧ cfg.openaiApiKey = none then
    .error openaiKeyMissingMsg
  else if cfg.activeProvider = .gemini ∧ cfg.geminiApiKey = none then
    .error geminiKeyMissingMsg
  else
    let stepped : ChatConfig × Nat :=
      if cfg.activeModel = none then
        let r := fetchAvailableModels cfg env
        let cfg' :=
          if r.1.activeModel = none ∧ r.1.availableModels.length ≠ 0 then
            match r.1.availableModels with
            | [] => r.1
            | m :: _ => { r.1 with activeModel := some m.id }
          else r.1
        (cfg', r.2)
      else (cfg, 0)
    if stepped.1.activeModel = none then
      .error ("No model selected. Please select a model in settings.")
    else
      let relevantChunks := searchRelevantChunks docs chunks query contextId
      if relevantChunks.length = 0 then
        .ok { answer := noRelevantInfoMsg, sources := [], providerCalls := stepped.2 }
      else
        .ok { answer := dispatchGenerate stepped.1 env
              sources := relevantChunks.map (sourceOf docs)
              providerCalls := stepped.2 + 1 }

/-- `ChatService.processQuery` of the provider-refactored chat service
(the module importing `OpenAIProvider`/`GeminiProvider`): throws when no
provider object is configured, otherwise retrieves by vector search —
its `contextId` parameter is accepted but never used — and short-circuits
on an empty result before any generation call. -/
def processQueryVS (hasProvider : Bool) (db : DB) (env : NetEnv)
    (providerKind : ProviderKind) (queryVector : List ℚ)
    (contextId : Option String) : Except String ProcessResult :=
  if !hasProvider then
    .error "LLM provider is not set. Please set it in the settings."
  else
    let relevantChunks := vsSearchSimilarChunks db queryVector 5
    if relevantChunks.length = 0 then
      .ok { answer := noRelevantInfoMsg, sources := [], providerCalls := 0 }
    else
      .ok { answer :=
              (match providerKind with
               | .openai => openaiGenerateAnswer env.openaiChat
               | .gemini => geminiGenerateAnswer env.geminiChat)
            sources := relevantChunks.map (sourceOf db.documents)
            providerCalls := 1 }

/-! ## `DocumentProcessor.extractTextFromPDF`

The pdf.js calls are external: the model's input is the per-page outcome
list — `ok text` with the page's extracted items already joined by
spaces, or `err` for a page whose `getPage`/`getTextContent` threw. -/

inductive PageResult where
  | ok (text : List Char)
  | err
deriving DecidableEq

/-- What one page appends to `fullText`: the page marker and either the
page's text or the error placeholder. -/
def pageBlock (i : Nat) (r : PageResult) : List Char :=
  match r with
  | .ok t => "Page ".data ++ (Nat.repr i).data ++ ":\n".data ++ t ++ "\n\n".data
  | .err => "Page ".data ++ (Nat.repr i).data ++ ":\n[Error extracting text from this page]\n\n".data

/-- `fullText` accumulated over the pages, first page numbered `i`. -/
def pdfFullText : Nat → List PageResult → List Char
  | _, [] => []
  | i, r :: rest => pageBlock i r ++ pdfFullText (i + 1) rest

/-- `rawContent` accumulated over the pages (successful pages only). -/
def pdfRawContent : List PageResult → List Char
  | [] => []
  | .ok t :: rest => t ++ "\n".data ++ pdfRawContent rest
  | .err :: rest => pdfRawContent rest

/-- The sentinel returned when the accumulated full text is blank. -/
def noExtractableTextSentinel : List Char :=
  "[No text could be extracted from this PDF. It may be scanned or contain only images.]".data

structure PdfExtract where
  content : List Char
  rawContent : List Char
deriving DecidableEq

/-- `DocumentProcessor.extractTextFromPDF`: accumulate every page's block
(substituting the in-band error placeholder for a failed page and
continuing), then return the sentinel when `fullText.trim()` is empty and
the accumulated text otherwise. -/
def extractTextFromPDF (pages : List PageResult) : PdfExtract :=
  let fullText := pdfFullText 1 pages
  if jsTrim fullText = [] then
    { content := noExtractableTextSentinel, rawContent := [] }
  else
    { content := fullText, rawContent := pdfRawContent pages }

/-! ## Concrete inputs used by counterexamples and witnesses -/

/-- A degenerate identifier supply (uuid collisions never matter to the
properties evaluated on it). -/
def uuidA : Nat → String := fun _ => "a"

def uuidB : Nat → String := fun _ => "b"

/-- A 1001-character text consisting of one sentence: one paragraph, so
the densification trigger (fewer than 5 chunks, more than 1000
characters) fires. -/
def exLongText : List Char :=
  List.replicate 1000 'a' ++ ['.']

def exChunk1 : Chunk :=
  { id := "c1", documentId := "doc1", content := "alpha content".data,
    metadata := { pageNumber := none, position := none, chunkType := .paragraph } }

def exChunk2 : Chunk :=
  { id := "c2", documentId := "doc1", content := "beta content".data,
    metadata := { pageNumber := none, position := none, chunkType := .paragraph } }

def exEmb1 : EmbeddingRecord :=
  { id := "e1", chunkId := "c2", vector := [1, 0], tokens := [] }

def exEmb2 : EmbeddingRecord :=
  { id := "e2", chunkId := "c1", vector := [0, 1], tokens := [] }

def exDoc : DocumentRecord :=
  { id := "doc1", name := "Doc One", content := [], type := "text",
    rawContent := none, metadata := some { context := some "pensions" },
    uploadDate := "" }

/-- A store whose chunk-table (id) order disagrees with similarity order
for the query vector `[1, 0]`: the embedding of `c2` matches the query
exactly, the embedding of `c1` is orthogonal to it. -/
def exDB : DB :=
  { documents := [exDoc], chunks := [exChunk1, exChunk2],
    embeddings := [exEmb1, exEmb2] }

def exQueryVec : List ℚ := [1, 0]

/-- A configuration with a key and a selected model, as the precondition
checks of `processQuery` require. -/
def exCfg : ChatConfig :=
  { openaiApiKey := some "sk-test", geminiApiKey := none,
    activeProvider := .openai, activeModel := some "gpt-4o",
    contextPrompt := [], availableModels := [] }

/-- An environment in which every network call fails. -/
def exEnv : NetEnv :=
  { openaiModels := .error "network down", openaiChat := .error "network down",
    geminiChat := .error "network down" }

/-- A store with no embeddings (for the vector-search empty path). -/
def exEmptyDB : DB :=
  { documents := [exDoc], chunks := [exChunk1], embeddings := [] }

end DocChat

namespace DocChat

/-! # Theorems

## C1 — referential integrity after every mutating store operation -/

theorem mem_sweptChunks {db : DB} {c : Chunk} (hc : c ∈ sweptChunks db) :
    c ∈ db.chunks ∧ c.documentId ∈ liveDocumentIds db := by
  have h1 := List.mem_filter.mp hc
  refine ⟨h1.1, ?_⟩
  by_contra hdead
  have hidmem : c.id ∈ orphanedChunkIds db :=
    List.mem_map_of_mem _ (List.mem_filter.mpr ⟨h1.1, by simpa using hdead⟩)
  have h2 : c.id ∉ orphanedChunkIds db := by simpa using h1.2
  exact h2 hidmem

theorem mem_sweptEmbeddings {db : DB} {e : EmbeddingRecord}
    (he : e ∈ (removeOrphanedChunksAndEmbeddings db).embeddings) :
    e ∈ db.embeddings ∧ e.chunkId ∈ (sweptChunks db).map (fun c => c.id) := by
  have h1 := List.mem_filter.mp he
  refine ⟨h1.1, ?_⟩
  by_contra hdead
  have hidmem : e.id ∈ orphanedEmbeddingIds db :=
    List.mem_map_of_mem _ (List.mem_filter.mpr ⟨h1.1, by simpa using hdead⟩)
  have h2 : e.id ∉ orphanedEmbeddingIds db := by simpa using h1.2
  exact h2 hidmem

theorem storeInv_removeOrphaned (db : DB) :
    StoreInv (removeOrphanedChunksAndEmbeddings db) := by
  constructor
  · intro c hc
    exact (mem_sweptChunks hc).2
  · intro e he
    exact (mem_sweptEmbeddings he).2

/-- A surviving chunk of `removeDocument` does not reference the removed
document. -/
theorem removeDocument_chunk_not_removed {db : DB} {documentId : String}
    {c : Chunk} (hc : c ∈ (removeDocument documentId db).chunks) :
    c.documentId ≠ documentId := by
  have h2 := (mem_sweptChunks hc).2
  simp only [liveDocumentIds, List.mem_map] at h2
  obtain ⟨d, hd, hid⟩ := h2
  have := (List.mem_filter.mp hd).2
  intro hEq
  simp only [decide_eq_true_eq] at this
  exact this (hid.trans hEq)

/-- C1.  After every mutating store operation (`addDocument`, `addChunks`,
`addEmbeddings`, `removeDocument`) every remaining chunk references an
existing document and every remaining embedding references an existing
chunk; in particular after `removeDocument D` no chunk of `D` and no
embedding whose owning chunk belonged to `D` remains. -/
theorem store_cascade_integrity (db : DB) (d : DocumentRecord)
    (cs : List Chunk) (es : List EmbeddingRecord) (documentId : String) :
    StoreInv (addDocument d db) ∧ StoreInv (addChunks cs db) ∧
    StoreInv (addEmbeddings es db) ∧ StoreInv (removeDocument documentId db) ∧
    (∀ c ∈ (removeDocument documentId db).chunks, c.documentId ≠ documentId) ∧
    (∀ e ∈ (removeDocument documentId db).embeddings,
      ∃ c ∈ (removeDocument documentId db).chunks,
        c.id = e.chunkId ∧ c.documentId ≠ documentId) := by
  refine ⟨storeInv_removeOrphaned _, storeInv_removeOrphaned _,
    storeInv_removeOrphaned _, storeInv_removeOrphaned _, ?_, ?_⟩
  · intro c hc
    exact removeDocument_chunk_not_removed hc
  · intro e he
    have h2 := (mem_sweptEmbeddings he).2
    simp only [List.mem_map] at h2
    obtain ⟨c, hc, hid⟩ := h2
    exact ⟨c, hc, hid, removeDocument_chunk_not_removed hc⟩

/-! ## Stable-sort lemmas -/

theorem insertS_cons_of_rel {α : Type} {r : α → α → Bool} {x y : α}
    (l : List α) (h : r x y = true) : insertS r x (y :: l) = x :: y :: l := by
  simp [insertS, h]

theorem mem_insertS {α : Type} {r : α → α → Bool} {x z : α} :
    ∀ {l : List α}, z ∈ insertS r x l ↔ z = x ∨ z ∈ l
  | [] => by simp [insertS]
  | y :: ys => by
    by_cases h : r x y = true
    · simp [insertS, h, or_assoc]
    · simp only [insertS, h, if_neg, Bool.not_eq_true] at *
      simp only [List.mem_cons, mem_insertS (l := ys)]
      tauto

theorem mem_sortS {α : Type} {r : α → α → Bool} {z : α} :
    ∀ {l : List α}, z ∈ sortS r l ↔ z ∈ l
  | [] => Iff.rfl
  | a :: l => by
    simp only [sortS, mem_insertS, List.mem_cons, mem_sortS (l := l)]

/-- A list all of whose pairs are related sorts to itself (the stable
sort never reorders equal keys). -/
theorem sortS_eq_self {α : Type} {r : α → α → Bool} :
    ∀ {l : List α}, (∀ x ∈ l, ∀ y ∈ l, r x y = true) → sortS r l = l
  | [], _ => rfl
  | a :: l, h => by
    have ih : sortS r l = l :=
      sortS_eq_self (fun x hx y hy => h x (List.mem_cons_of_mem _ hx) y (List.mem_cons_of_mem _ hy))
    cases l with
    | nil => simp [sortS, insertS]
    | cons b bs =>
      simp only [sortS] at ih ⊢
      rw [ih, insertS_cons_of_rel]
      exact h a (List.mem_cons_self _ _) b (List.mem_cons_of_mem _ (List.mem_cons_self _ _))

theorem chain'_insertS {α : Type} {r : α → α → Bool}
    (htot : ∀ a b : α, r a b = true ∨ r b a = true) (x : α) :
    ∀ {l : List α}, List.Chain' (fun a b => r a b = true) l →
      List.Chain' (fun a b => r a b = true) (insertS r x l)
  | [], _ => List.chain'_singleton x
  | y :: ys, h => by
    by_cases hxy : r x y = true
    · rw [insertS_cons_of_rel ys hxy]
      exact List.Chain'.cons hxy h
    · simp only [insertS, hxy, if_false]
      have hyx : r y x = true := (htot x y).resolve_left hxy
      have htail := chain'_insertS htot x (List.Chain'.tail h)
      refine List.chain'_cons'.mpr ⟨?_, htail⟩
      intro z hz
      cases ys with
      | nil =>
        simp only [insertS, List.head?_cons, Option.mem_def, Option.some.injEq] at hz
        exact hz ▸ hyx
      | cons w ws =>
        by_cases hxw : r x w = true
        · rw [insertS_cons_of_rel ws hxw] at hz
          simp only [List.head?_cons, Option.mem_def, Option.some.injEq] at hz
          exact hz ▸ hyx
        · have hins : insertS r x (w :: ws) = w :: insertS r x ws := by
            simp only [insertS]
            rw [if_neg hxw]
          rw [hins] at hz
          simp only [List.head?_cons, Option.mem_def, Option.some.injEq] at hz
          exact hz ▸ (List.chain'_cons.mp h).1

theorem chain'_sortS {α : Type} {r : α → α → Bool}
    (htot : ∀ a b : α, r a b = true ∨ r b a = true) :
    ∀ (l : List α), List.Chain' (fun a b => r a b = true) (sortS r l)
  | [] => List.chain'_nil
  | a :: l => chain'_insertS htot a (chain'_sortS htot l)

/-! ## C10 — `Database.searchSimilarChunks` ignores its query vector -/

/-- C10.  `Database.searchSimilarChunks` scores every embedding with the
constant `0.5`, so its result does not depend on the query vector: for
every store state it returns the chunks owned by the first
`min(limit, n)` embeddings in store iteration order (stable sort of a
constant key, then `take limit`, then per-embedding chunk lookup with
missing chunks dropped). -/
theorem dbSearch_ignores_query (db : DB) (qv qv' : List ℚ) (limit : Nat) :
    dbSearchSimilarChunks db qv limit = dbSearchSimilarChunks db qv' limit ∧
    dbSearchSimilarChunks db qv limit =
      (db.embeddings.take limit).filterMap
        (fun e => db.chunks.find? (fun c => decide (c.id = e.chunkId))) := by
  have key : ∀ q : List ℚ,
      dbSearchSimilarChunks db q limit =
        (db.embeddings.take limit).filterMap
          (fun e => db.chunks.find? (fun c => decide (c.id = e.chunkId))) := by
    intro q
    simp only [dbSearchSimilarChunks]
    have hsorted :
        sortS (fun a b : EmbeddingRecord × ℚ => decide (b.2 ≤ a.2))
          (db.embeddings.map (fun e => (e, (0.5 : ℚ)))) =
        db.embeddings.map (fun e => (e, (0.5 : ℚ))) := by
      refine sortS_eq_self ?_
      intro x hx y hy
      simp only [List.mem_map] at hx hy
      obtain ⟨ex, _, hxe⟩ := hx
      obtain ⟨ey, _, hye⟩ := hy
      subst hxe; subst hye
      simp
    rw [hsorted, ← List.map_take, List.map_map, List.filterMap_map]
    rfl
  exact ⟨(key qv).trans (key qv').symm, key qv⟩

/-! ## C2 — `VectorSearchService.searchSimilarChunks` -/

/-- C2 (amended).  The service ranks all stored embeddings by cosine
similarity with the query vector — descending, ties kept in original
iteration order by the stable sort — and keeps the chunk ids of the first
`limit`; but the returned chunks come back from the `anyOf` index query
in chunk-table (id) order, not in rank order.  So: at most `limit` chunks
(given the table's key uniqueness), each owned by a top-`limit`
embedding, listed as a sublist of the chunk table; and the ranking the
selection uses is non-increasing in similarity. -/
theorem vsSearch_bounded_tableOrder (db : DB) (qv : List ℚ) (limit : Nat)
    (hids : (db.chunks.map (fun c => c.id)).Nodup) :
    (vsSearchSimilarChunks db qv limit).length ≤ limit ∧
    List.Sublist (vsSearchSimilarChunks db qv limit) db.chunks ∧
    (∀ c ∈ vsSearchSimilarChunks db qv limit, c.id ∈ topChunkIds db qv limit) ∧
    List.Chain' (fun a b => b.2 ≤ a.2)
      (sortS (fun a b => decide (b.2 ≤ a.2))
        (db.embeddings.map (fun e => (e, cosineSimilarity qv e.vector)))) := by
  have hmem : ∀ c ∈ vsSearchSimilarChunks db qv limit,
      c.id ∈ topChunkIds db qv limit := by
    intro c hc
    have := (List.mem_filter.mp hc).2
    simpa using this
  refine ⟨?_, List.filter_sublist _, hmem, ?_⟩
  · have hidlen : (topChunkIds db qv limit).length ≤ limit := by
      simp only [topChunkIds, List.length_map]
      exact List.length_take_le _ _
    have hsub : List.Sublist ((vsSearchSimilarChunks db qv limit).map (fun c => c.id))
        (db.chunks.map (fun c => c.id)) :=
      List.Sublist.map _ (List.filter_sublist _)
    have hnd : ((vsSearchSimilarChunks db qv limit).map (fun c => c.id)).Nodup :=
      hids.sublist hsub
    have hsubset : ((vsSearchSimilarChunks db qv limit).map (fun c => c.id)).toFinset ⊆
        (topChunkIds db qv limit).toFinset := by
      intro z hz
      simp only [List.mem_toFinset, List.mem_map] at hz
      obtain ⟨c, hc, hcz⟩ := hz
      simp only [List.mem_toFinset]
      exact hcz ▸ hmem c hc
    calc (vsSearchSimilarChunks db qv limit).length
        = ((vsSearchSimilarChunks db qv limit).map (fun c => c.id)).length := by
          rw [List.length_map]
      _ = ((vsSearchSimilarChunks db qv limit).map (fun c => c.id)).toFinset.card :=
          (List.toFinset_card_of_nodup hnd).symm
      _ ≤ (topChunkIds db qv limit).toFinset.card := Finset.card_le_card hsubset
      _ ≤ (topChunkIds db qv limit).length := List.toFinset_card_le _
      _ ≤ limit := hidlen
  · have htot : ∀ a b : EmbeddingRecord × ℚ,
        decide (b.2 ≤ a.2) = true ∨ decide (a.2 ≤ b.2) = true := by
      intro a b
      rcases le_total b.2 a.2 with h | h
      · exact Or.inl (decide_eq_true h)
      · exact Or.inr (decide_eq_true h)
    have := chain'_sortS htot
      (db.embeddings.map (fun e => (e, cosineSimilarity qv e.vector)))
    exact List.Chain'.imp (fun a b hab => of_decide_eq_true hab) this

/-- C2 witness: the amended theorem applied to the two-chunk,
two-embedding store `exDB` and the query vector `[1, 0]`. -/
theorem vsSearch_bounded_tableOrder_witness :
    (vsSearchSimilarChunks exDB exQueryVec 5).length ≤ 5 ∧
    List.Sublist (vsSearchSimilarChunks exDB exQueryVec 5) exDB.chunks ∧
    (∀ c ∈ vsSearchSimilarChunks exDB exQueryVec 5, c.id ∈ topChunkIds exDB exQueryVec 5) ∧
    List.Chain' (fun a b => b.2 ≤ a.2)
      (sortS (fun a b => decide (b.2 ≤ a.2))
        (exDB.embeddings.map (fun e => (e, cosineSimilarity exQueryVec e.vector)))) :=
  vsSearch_bounded_tableOrder exDB exQueryVec 5 (by decide)

theorem natSqrtLin_one : natSqrtLin 1 = 1 := by decide

theorem ratSqrt_one : ratSqrt 1 = 1 := by
  simp [ratSqrt, natSqrtLin_one]

theorem cos_unit_same : cosineSimilarity [(1 : ℚ), 0] [(1 : ℚ), 0] = 1 := by
  have hd : dotProduct [(1 : ℚ), 0] [(1 : ℚ), 0] = 1 := by
    norm_num [dotProduct]
  have hs : sumSquares [(1 : ℚ), 0] = 1 := by
    norm_num [sumSquares]
  rw [cosineSimilarity, hd, hs, ratSqrt_one]
  norm_num

theorem cos_unit_orth : cosineSimilarity [(1 : ℚ), 0] [(0 : ℚ), 1] = 0 := by
  have hd : dotProduct [(1 : ℚ), 0] [(0 : ℚ), 1] = 0 := by
    norm_num [dotProduct]
  have hs : sumSquares [(1 : ℚ), 0] = 1 := by
    norm_num [sumSquares]
  have hs' : sumSquares [(0 : ℚ), 1] = 1 := by
    norm_num [sumSquares]
  rw [cosineSimilarity, hd, hs, hs', ratSqrt_one]
  norm_num

theorem topChunkIds_ex : topChunkIds exDB exQueryVec 5 = ["c2", "c1"] := by
  simp only [topChunkIds, exDB, exEmb1, exEmb2, exQueryVec, List.map]
  rw [cos_unit_same, cos_unit_orth]
  norm_num [sortS, insertS]

theorem vsSearch_ex : vsSearchSimilarChunks exDB exQueryVec 5 = [exChunk1, exChunk2] := by
  simp only [vsSearchSimilarChunks, topChunkIds_ex]
  decide

theorem chunkSim_ex1 : chunkSim exDB exQueryVec exChunk1 = 0 := by
  have hfind : exDB.embeddings.find? (fun e => decide (e.chunkId = exChunk1.id)) =
      some exEmb2 := by decide
  simp only [chunkSim, hfind, exEmb2, exQueryVec]
  exact cos_unit_orth

theorem chunkSim_ex2 : chunkSim exDB exQueryVec exChunk2 = 1 := by
  have hfind : exDB.embeddings.find? (fun e => decide (e.chunkId = exChunk2.id)) =
      some exEmb1 := by decide
  simp only [chunkSim, hfind, exEmb1, exQueryVec]
  exact cos_unit_same

/-- C2 counterexample.  On `exDB` with query vector `[1, 0]` the service
returns `[c1, c2]` (chunk-table order), yet `c1`'s embedding has
similarity 0 and `c2`'s has similarity 1: the returned sequence is not in
non-increasing similarity order, refuting the ordering clause of the
claim. -/
theorem vsSearch_order_counterexample :
    vsSearchSimilarChunks exDB exQueryVec 5 = [exChunk1, exChunk2] ∧
    chunkSim exDB exQueryVec exChunk1 < chunkSim exDB exQueryVec exChunk2 ∧
    ¬ List.Chain' (fun a b => chunkSim exDB exQueryVec b ≤ chunkSim exDB exQueryVec a)
      (vsSearchSimilarChunks exDB exQueryVec 5) := by
  refine ⟨vsSearch_ex, ?_, ?_⟩
  · rw [chunkSim_ex1, chunkSim_ex2]
    norm_num
  · rw [vsSearch_ex]
    intro h
    have := (List.chain'_cons.mp h).1
    rw [chunkSim_ex1, chunkSim_ex2] at this
    norm_num at this

/-! ## C6 — provider failure fallbacks -/

/-- C6.  For either backend, any failure of the underlying call leaves
the model-listing operation returning its fixed non-empty backend-specific
default list, and leaves `generateAnswer` returning the human-readable
fallback string that embeds the error detail.  Both operations are total
functions of the call's outcome in this model: the single `catch` of each
source method turns every raised failure into these return values, so
neither operation re-raises to its caller. -/
theorem provider_failure_fallback (err : String) :
    openaiFetchModels (.error err) = openaiDefaultModels ∧
    openaiDefaultModels ≠ [] ∧
    geminiFetchModels (.error err) = geminiDefaultModels ∧
    geminiDefaultModels ≠ [] ∧
    openaiDefaultModels ≠ geminiDefaultModels ∧
    List.IsInfix err.data (openaiGenerateAnswer (.error err)).data ∧
    List.IsInfix err.data (geminiGenerateAnswer (.error err)).data := by
  refine ⟨rfl, by decide, rfl, by decide, by decide, ?_, ?_⟩
  · show List.IsInfix err.data (openaiFallbackAnswer err).data
    refine ⟨("I encountered an error while processing your query with OpenAI. " ++
      "Please check your API key and try again. Error details: ").data, [], ?_⟩
    simp [openaiFallbackAnswer]
  · show List.IsInfix err.data (geminiFallbackAnswer err).data
    refine ⟨("I encountered an error while processing your query with Google Gemini. " ++
      "Please check your API key and try again. Error details: ").data, [], ?_⟩
    simp [geminiFallbackAnswer]

/-! ## C7 — the orchestrator's empty-retrieval short-circuit -/

/-- The API key of the configuration's active provider. -/
def activeKey (cfg : ChatConfig) : Option String :=
  match cfg.activeProvider with
  | .openai => cfg.openaiApiKey
  | .gemini => cfg.geminiApiKey

/-- C7.  With the provider preconditions satisfied (a key for the active
provider and a selected model): whenever retrieval returns no chunk —
in particular whenever the supplied non-empty context id matches zero
documents — `processQuery` returns the fixed no-relevant-information
answer with an empty source list and performs zero provider network
calls.  The provider-refactored `processQuery` (vector retrieval) behaves
the same on its empty path. -/
theorem processQuery_empty_short_circuit (cfg : ChatConfig)
    (docs : List DocumentRecord) (chunks : List Chunk) (env : NetEnv)
    (query : List Char) (ctx : String) (db : DB) (pk : ProviderKind)
    (qvec : List ℚ)
    (hk : activeKey cfg ≠ none) (hm : cfg.activeModel ≠ none) :
    (searchRelevantChunks docs chunks query (some ctx) = [] →
      processQuery cfg docs chunks env query (some ctx) =
        .ok { answer := noRelevantInfoMsg, sources := [], providerCalls := 0 }) ∧
    (ctx ≠ "" →
      docs.filter (fun d => decide (docContext d = some ctx)) = [] →
      searchRelevantChunks docs chunks query (some ctx) = []) ∧
    (db.embeddings = [] →
      processQueryVS true db env pk qvec (some ctx) =
        .ok { answer := noRelevantInfoMsg, sources := [], providerCalls := 0 }) := by
  have h1 : ¬(cfg.activeProvider = .openai ∧ cfg.openaiApiKey = none) := by
    rintro ⟨hp, hkey⟩
    rw [activeKey, hp] at hk
    exact hk hkey
  have h2 : ¬(cfg.activeProvider = .gemini ∧ cfg.geminiApiKey = none) := by
    rintro ⟨hp, hkey⟩
    rw [activeKey, hp] at hk
    exact hk hkey
  refine ⟨?_, ?_, ?_⟩
  · intro hempty
    simp [processQuery, h1, h2, hm, hempty]
  · intro hne hfilter
    by_cases hd : docs.length = 0
    · simp [searchRelevantChunks, hd]
    · simp [searchRelevantChunks, hd, hne, hfilter]
  · intro hemb
    have hvs : vsSearchSimilarChunks db qvec 5 = [] := by
      have hids : topChunkIds db qvec 5 = [] := by
        simp [topChunkIds, hemb, sortS]
      simp [vsSearchSimilarChunks, hids]
    simp [processQueryVS, hvs]

/-- C7 witness: a configured OpenAI provider, one document tagged with
context `pensions`, and the query context `legal`, which matches zero
documents. -/
theorem processQuery_empty_short_circuit_witness :
    processQuery exCfg [exDoc] [] exEnv "hello there".data (some "legal") =
      .ok { answer := noRelevantInfoMsg, sources := [], providerCalls := 0 } :=
  (processQuery_empty_short_circuit exCfg [exDoc] [] exEnv "hello there".data
    "legal" exEmptyDB .openai [] (by decide) (by decide)).1 (by decide)

/-! ## Whitespace-trim lemmas -/

/-- `jsTrim` erases a string exactly when it is all whitespace. -/
theorem jsTrim_eq_nil_iff {s : List Char} :
    jsTrim s = [] ↔ ∀ c ∈ s, isWS c = true := by
  unfold jsTrim
  rw [List.reverse_eq_nil_iff, List.dropWhile_eq_nil_iff]
  constructor
  · intro h c hc
    rcases List.mem_append.mp
        ((List.takeWhile_append_dropWhile (p := isWS) (l := s)) ▸ hc) with h1 | h1
    · exact List.mem_takeWhile_imp h1
    · exact h c (List.mem_reverse.mpr h1)
  · intro h c hc
    exact h c ((List.dropWhile_sublist _).subset (List.mem_reverse.mp hc))

/-- A string holding a non-whitespace character does not trim to
nothing. -/
theorem jsTrim_ne_nil {s : List Char} {c : Char} (hc : c ∈ s)
    (hw : isWS c = false) : jsTrim s ≠ [] := by
  intro h
  have := jsTrim_eq_nil_iff.mp h c hc
  rw [hw] at this
  cases this

/-- Trimming only erases characters. -/
theorem jsTrim_length_le (s : List Char) : (jsTrim s).length ≤ s.length := by
  unfold jsTrim
  calc ((s.dropWhile isWS).reverse.dropWhile isWS).reverse.length
      = ((s.dropWhile isWS).reverse.dropWhile isWS).length := List.length_reverse _
    _ ≤ (s.dropWhile isWS).reverse.length := (List.dropWhile_sublist _).length_le
    _ = (s.dropWhile isWS).length := List.length_reverse _
    _ ≤ s.length := (List.dropWhile_sublist _).length_le

/-- The first character surviving `dropWhile` fails the predicate. -/
theorem dropWhile_head_false {p : Char → Bool} {s : List Char} {c : Char}
    {t : List Char} (h : s.dropWhile p = c :: t) : p c = false := by
  have := List.head?_dropWhile_not p s
  rw [h] at this
  simpa using this

/-- A non-empty trim retains a non-whitespace character (the one the
inner `dropWhile` stopped at). -/
theorem jsTrim_has_nonWS {s : List Char} (h : jsTrim s ≠ []) :
    ∃ c ∈ jsTrim s, isWS c = false := by
  unfold jsTrim at h ⊢
  cases h1 : (s.dropWhile isWS).reverse.dropWhile isWS with
  | nil => rw [h1] at h; simp at h
  | cons c t =>
    refine ⟨c, ?_, dropWhile_head_false h1⟩
    exact List.mem_reverse.mpr (List.mem_cons_self _ _)

/-- Trimming twice never erases a string whose single trim is
non-empty. -/
theorem jsTrim_jsTrim_ne_nil {s : List Char} (h : jsTrim s ≠ []) :
    jsTrim (jsTrim s) ≠ [] := by
  obtain ⟨c, hc, hw⟩ := jsTrim_has_nonWS h
  exact jsTrim_ne_nil hc hw

/-! ## C8 — PDF extraction resilience and the no-text sentinel -/

theorem pdfFullText_append (l1 : List PageResult) :
    ∀ (i : Nat) (l2 : List PageResult),
      pdfFullText i (l1 ++ l2) = pdfFullText i l1 ++ pdfFullText (i + l1.length) l2 := by
  induction l1 with
  | nil => intro i l2; simp [pdfFullText]
  | cons r rest ih =>
    intro i l2
    show pageBlock i r ++ pdfFullText (i + 1) (rest ++ l2) =
      pageBlock i r ++ pdfFullText (i + 1) rest ++ pdfFullText (i + (r :: rest).length) l2
    rw [ih (i + 1) l2, List.append_assoc]
    have h : i + 1 + rest.length = i + (r :: rest).length := by
      simp only [List.length_cons]
      omega
    rw [h]

/-- Every page block begins with the `P` of its page marker. -/
theorem pageBlock_cons (i : Nat) (r : PageResult) :
    ∃ t, pageBlock i r = 'P' :: t := by
  cases r <;> exact ⟨_, rfl⟩

/-- A document with at least one page accumulates a full text that does
not trim to nothing: the page marker's `P` survives. -/
theorem pdfFullText_trim_ne_nil (r : PageResult) (rest : List PageResult) :
    jsTrim (pdfFullText 1 (r :: rest)) ≠ [] := by
  obtain ⟨t, ht⟩ := pageBlock_cons 1 r
  have hmem : 'P' ∈ pdfFullText 1 (r :: rest) := by
    show 'P' ∈ pageBlock 1 r ++ pdfFullText 2 rest
    rw [ht]
    exact List.mem_cons_self _ _
  exact jsTrim_ne_nil hmem (by decide)

/-- C8 (amended).  A failing page contributes its in-band error
placeholder block and extraction continues through the remaining pages;
and the fixed no-extractable-text sentinel is returned exactly when the
accumulated full text — which always contains the non-whitespace page
markers — trims to nothing, which never happens once the document has at
least one page (even a page whose extracted text is empty or
whitespace-only). -/
theorem pdf_page_failure_resilience (ps1 ps2 pages : List PageResult)
    (r : PageResult) (rest : List PageResult) :
    (extractTextFromPDF (ps1 ++ PageResult.err :: ps2)).content =
      pdfFullText 1 ps1 ++ pageBlock (ps1.length + 1) .err ++
        pdfFullText (ps1.length + 2) ps2 ∧
    ((extractTextFromPDF pages).content = noExtractableTextSentinel ↔
      jsTrim (pdfFullText 1 pages) = []) ∧
    (extractTextFromPDF (r :: rest)).content = pdfFullText 1 (r :: rest) := by
  have hcontent : ∀ (r' : PageResult) (rest' : List PageResult),
      (extractTextFromPDF (r' :: rest')).content = pdfFullText 1 (r' :: rest') := by
    intro r' rest'
    simp only [extractTextFromPDF]
    rw [if_neg (pdfFullText_trim_ne_nil r' rest')]
  refine ⟨?_, ?_, hcontent r rest⟩
  · cases ps1 with
    | nil =>
      rw [List.nil_append, hcontent .err ps2]
      simp [pdfFullText]
    | cons q qs =>
      rw [show (q :: qs) ++ PageResult.err :: ps2 = q :: (qs ++ PageResult.err :: ps2) from rfl,
        hcontent q (qs ++ PageResult.err :: ps2)]
      show pdfFullText 1 ((q :: qs) ++ PageResult.err :: ps2) = _
      rw [pdfFullText_append (q :: qs) 1 (PageResult.err :: ps2)]
      simp only [pdfFullText, List.length_cons, List.append_assoc]
      rw [Nat.add_comm 1 (qs.length + 1), Nat.add_assoc]
  · constructor
    · intro h
      by_contra htrim
      rw [show (extractTextFromPDF pages).content = pdfFullText 1 pages from ?_] at h
      · cases pages with
        | nil => simp [pdfFullText, noExtractableTextSentinel] at h
        | cons r' rest' =>
          obtain ⟨t, ht⟩ := pageBlock_cons 1 r'
          have : pdfFullText 1 (r' :: rest') = 'P' :: (t ++ pdfFullText 2 rest') := by
            show pageBlock 1 r' ++ pdfFullText 2 rest' = _
            rw [ht]
            rfl
          rw [this] at h
          have hhead := congrArg (fun l => l.head?) h
          simp [noExtractableTextSentinel] at hhead
      · simp only [extractTextFromPDF]
        rw [if_neg htrim]
    · intro h
      simp only [extractTextFromPDF]
      rw [if_pos h]

/-- C8 counterexample.  A one-page PDF whose single page extracts to the
empty string: no page yields any non-whitespace text, yet the returned
content is the page marker block, not the no-extractable-text sentinel —
refuting the sentinel clause of the claim. -/
theorem pdf_sentinel_counterexample :
    (extractTextFromPDF [PageResult.ok []]).content ≠ noExtractableTextSentinel ∧
    (extractTextFromPDF [PageResult.ok []]).content = "Page 1:\n\n\n".data := by
  constructor
  · decide
  · decide

/-! ## Character-class lemmas -/

theorem ws_not_term {c : Char} (h : isWS c = true) : isTerm c = false := by
  have := of_decide_eq_true h
  rcases this with h1 | h1 | h1 | h1 | h1 | h1 <;> subst h1 <;> decide

theorem term_not_ws {c : Char} (h : isTerm c = true) : isWS c = false := by
  have := of_decide_eq_true h
  rcases this with h1 | h1 | h1 <;> subst h1 <;> decide

theorem ws_not_P {c : Char} (h : isWS c = true) : ('P' = c) = False := by
  have := of_decide_eq_true h
  rcases this with h1 | h1 | h1 | h1 | h1 | h1 <;> subst h1 <;> decide

/-! ## Whitespace-only inputs pass every splitter unscathed -/

theorem matchPageMarker_none_of_ws {s : List Char}
    (h : ∀ c ∈ s, isWS c = true) : matchPageMarker s = none := by
  cases s with
  | nil => rfl
  | cons c t =>
    have hP : ('P' = c) = False := ws_not_P (h c (List.mem_cons_self _ _))
    simp [matchPageMarker, isPrefixCh, hP]

theorem splitPagesAux_ws :
    ∀ (fuel : Nat) (s acc : List Char), (∀ c ∈ s, isWS c = true) →
      splitPagesAux fuel s acc = [acc.reverse ++ s]
  | 0, s, acc, _ => rfl
  | fuel + 1, s, acc, h => by
    cases s with
    | nil => simp [splitPagesAux]
    | cons c rest =>
      rw [splitPagesAux, matchPageMarker_none_of_ws h,
        splitPagesAux_ws fuel rest (c :: acc) (fun x hx => h x (List.mem_cons_of_mem _ hx))]
      simp

theorem splitPages_ws {s : List Char} (h : ∀ c ∈ s, isWS c = true) :
    splitPages s = [s] := by
  rw [splitPages, splitPagesAux_ws _ s [] h]
  simp

theorem splitParasAux_chars :
    ∀ (fuel : Nat) (s acc t : List Char), t ∈ splitParasAux fuel s acc →
      ∀ c ∈ t, c ∈ acc ∨ c ∈ s
  | 0, s, acc, t, ht, c, hc => by
    simp only [splitParasAux, List.mem_singleton] at ht
    subst ht
    rcases List.mem_append.mp hc with h1 | h1
    · exact Or.inl (List.mem_reverse.mp h1)
    · exact Or.inr h1
  | fuel + 1, s, acc, t, ht, c, hc => by
    cases s with
    | nil =>
      simp only [splitParasAux, List.mem_singleton] at ht
      subst ht
      exact Or.inl (List.mem_reverse.mp hc)
    | cons x rest =>
      rw [splitParasAux] at ht
      cases hm : matchParaBreak (x :: rest) with
      | some n =>
        rw [hm] at ht
        rcases List.mem_cons.mp ht with h1 | h1
        · subst h1
          exact Or.inl (List.mem_reverse.mp hc)
        · rcases splitParasAux_chars fuel _ [] t h1 c hc with h2 | h2
          · cases h2
          · exact Or.inr (List.drop_subset _ _ h2)
      | none =>
        rw [hm] at ht
        rcases splitParasAux_chars fuel rest (x :: acc) t ht c hc with h2 | h2
        · rcases List.mem_cons.mp h2 with h3 | h3
          · exact Or.inr (h3 ▸ List.mem_cons_self _ _)
          · exact Or.inl h3
        · exact Or.inr (List.mem_cons_of_mem _ h2)

theorem splitParas_chars {s t : List Char} (ht : t ∈ splitParas s) :
    ∀ c ∈ t, c ∈ s := by
  intro c hc
  rcases splitParasAux_chars _ s [] t ht c hc with h | h
  · cases h
  · exact h

/-- Every emission of the sentence splitter is a body followed by a
non-empty block of terminators. -/
theorem sentenceSplitAux_shape :
    ∀ (fuel : Nat) (s t : List Char), t ∈ sentenceSplitAux fuel s →
      ∃ body terms, t = body ++ terms ∧ terms ≠ [] ∧ ∀ c ∈ terms, isTerm c = true
  | 0, _, t, ht => by cases ht
  | fuel + 1, s, t, ht => by
    cases s with
    | nil => cases ht
    | cons x rest =>
      simp only [sentenceSplitAux] at ht
      split at ht
      · exact sentenceSplitAux_shape fuel rest t ht
      · split at ht
        · cases ht
        · next hlen =>
          rcases List.mem_cons.mp ht with h1 | h1
          · refine ⟨_, _, h1, ?_, ?_⟩
            · intro hnil
              rw [hnil] at hlen
              simp at hlen
            · intro c hc
              exact List.mem_takeWhile_imp hc
          · exact sentenceSplitAux_shape fuel _ t h1

theorem sentenceSplit_term {s t : List Char} (ht : t ∈ sentenceSplit s) :
    ∃ c ∈ t, isTerm c = true := by
  obtain ⟨body, terms, heq, hne, hterm⟩ := sentenceSplitAux_shape _ s t ht
  obtain ⟨d, hd⟩ := List.exists_mem_of_ne_nil terms hne
  exact ⟨d, heq ▸ List.mem_append.mpr (Or.inr hd), hterm d hd⟩

/-- Whitespace-only text matches no sentence. -/
theorem sentenceSplit_ws {s : List Char} (h : ∀ c ∈ s, isWS c = true) :
    sentenceSplit s = [] := by
  rw [sentenceSplit]
  cases s with
  | nil => rfl
  | cons x rest =>
    rw [sentenceSplitAux]
    have hx : isTerm x = false := ws_not_term (h x (List.mem_cons_self _ _))
    rw [if_neg (by simp [hx])]
    have hbody : (x :: rest).takeWhile (fun c => ¬ isTerm c) = x :: rest := by
      rw [List.takeWhile_eq_self_iff]
      intro a ha
      simp [ws_not_term (h a ha)]
    rw [hbody]
    simp

/-! ## The paragraph tier: produced chunks and the skip rule -/

theorem pushParas_skip (uuid : Nat → String) (d : String) (pn : Option Nat)
    (base : List Char) :
    ∀ (paras : List (List Char)) (st : Nat × List Chunk),
      (∀ p ∈ paras, (jsTrim p).length < 10) →
      pushParas uuid d pn base paras st = st
  | [], st, _ => rfl
  | p :: ps, st, h => by
    have hp := h p (List.mem_cons_self _ _)
    show pushParas uuid d pn base ps
      (if (jsTrim p).length < 10 then st else _) = st
    rw [if_pos hp]
    exact pushParas_skip uuid d pn base ps st
      (fun q hq => h q (List.mem_cons_of_mem _ hq))

theorem pushParas_mem (uuid : Nat → String) (d : String) (pn : Option Nat)
    (base : List Char) :
    ∀ (paras : List (List Char)) (st : Nat × List Chunk) (ch : Chunk),
      ch ∈ (pushParas uuid d pn base paras st).2 →
      ch ∈ st.2 ∨ ∃ p, ¬((jsTrim p).length < 10) ∧ ch.content = jsTrim p ∧
        ch.documentId = d ∧ ch.metadata.chunkType = .paragraph
  | [], st, ch, h => Or.inl h
  | p :: ps, st, ch, h => by
    by_cases hp : (jsTrim p).length < 10
    · have hstep : pushParas uuid d pn base (p :: ps) st = pushParas uuid d pn base ps st := by
        show pushParas uuid d pn base ps (if (jsTrim p).length < 10 then st else _) = _
        rw [if_pos hp]
      rw [hstep] at h
      exact pushParas_mem uuid d pn base ps st ch h
    · have hstep : pushParas uuid d pn base (p :: ps) st =
          pushParas uuid d pn base ps
            (st.1 + 1, st.2 ++ [paraChunkOf uuid st.1 d pn base p]) := by
        show pushParas uuid d pn base ps (if (jsTrim p).length < 10 then st else _) = _
        rw [if_neg hp]
      rw [hstep] at h
      rcases pushParas_mem uuid d pn base ps _ ch h with h1 | h1
      · rcases List.mem_append.mp h1 with h2 | h2
        · exact Or.inl h2
        · have h3 := List.mem_singleton.mp h2
          subst h3
          exact Or.inr ⟨p, hp, rfl, rfl, rfl⟩
      · exact Or.inr h1

/-- Every chunk of the paragraph tier is a paragraph-typed chunk holding
the trim of some paragraph that passed the minimum-length rule. -/
theorem paragraphChunks_mem {uuid : Nat → String} {k : Nat} {d : String}
    {content : List Char} {ft : String} {ch : Chunk}
    (h : ch ∈ paragraphChunks uuid k d content ft) :
    ch.documentId = d ∧ ch.metadata.chunkType = .paragraph ∧
      ∃ p, ¬((jsTrim p).length < 10) ∧ ch.content = jsTrim p := by
  have main : ∀ (pages : List (Nat × List Char)) (st : Nat × List Chunk),
      ch ∈ (pages.foldl
        (fun st page => if jsTrim page.2 = [] then st
          else pushParas uuid d (some page.1) page.2 (splitParas page.2) st) st).2 →
      ch ∈ st.2 ∨ ∃ p, ¬((jsTrim p).length < 10) ∧ ch.content = jsTrim p ∧
        ch.documentId = d ∧ ch.metadata.chunkType = .paragraph := by
    intro pages
    induction pages with
    | nil => intro st h'; exact Or.inl h'
    | cons page rest ih =>
      intro st h'
      rw [List.foldl_cons] at h'
      rcases ih _ h' with h1 | h1
      · by_cases hpg : jsTrim page.2 = []
        · rw [if_pos hpg] at h1
          exact Or.inl h1
        · rw [if_neg hpg] at h1
          rcases pushParas_mem uuid d (some page.1) page.2 (splitParas page.2) st ch h1 with h2 | h2
          · exact Or.inl h2
          · exact Or.inr h2
      · exact Or.inr h1
  by_cases hft : ft = "pdf"
  · rw [paragraphChunks, if_pos hft] at h
    rcases main ((splitPages content).enum) (k, []) h with h1 | h1
    · cases h1
    · obtain ⟨p, hp1, hp2, hp3, hp4⟩ := h1
      exact ⟨hp3, hp4, p, hp1, hp2⟩
  · rw [paragraphChunks, if_neg hft] at h
    rcases pushParas_mem uuid d none content (splitParas content) (k, []) ch h with h1 | h1
    · cases h1
    · obtain ⟨p, hp1, hp2, hp3, hp4⟩ := h1
      exact ⟨hp3, hp4, p, hp1, hp2⟩

/-- On whitespace-only content the paragraph tier produces nothing. -/
theorem paragraphChunks_ws {uuid : Nat → String} {k : Nat} {d : String}
    {content : List Char} {ft : String}
    (h : ∀ c ∈ content, isWS c = true) :
    paragraphChunks uuid k d content ft = [] := by
  have htrim : jsTrim content = [] := jsTrim_eq_nil_iff.mpr h
  by_cases hft : ft = "pdf"
  · rw [paragraphChunks, if_pos hft, splitPages_ws h]
    have henum : ([content] : List (List Char)).enum = [(0, content)] := rfl
    rw [henum]
    simp [htrim]
  · rw [paragraphChunks, if_neg hft, pushParas_skip]
    intro p hp
    have : jsTrim p = [] :=
      jsTrim_eq_nil_iff.mpr (fun c hc => h c (splitParas_chars hp c hc))
    simp [this]

/-! ## The sentence-group tier: the greedy grouping loop's invariant -/

theorem sentenceFold_inv (uuid : Nat → String) (d : String) (content : List Char) :
    ∀ (ss : List (List Char)) (st : SGState),
      (∀ s ∈ ss, (∃ c ∈ s, isTerm c = true) ∧ s ∈ sentenceSplit content) →
      (∀ ch ∈ st.chunks, ch.metadata.chunkType = .sentenceGroup ∧ ch.documentId = d ∧
        ∃ w, ch.content = jsTrim w ∧ (∃ c ∈ w, isTerm c = true) ∧
          (w.length ≤ 501 ∨ w ∈ sentenceSplit content)) →
      (st.currentChunk = [] ∨ ((∃ c ∈ st.currentChunk, isTerm c = true) ∧
        (st.currentChunk.length ≤ 501 ∨ st.currentChunk ∈ sentenceSplit content))) →
      (∀ ch ∈ (ss.foldl (sgStep uuid d content) st).chunks,
        ch.metadata.chunkType = .sentenceGroup ∧ ch.documentId = d ∧
        ∃ w, ch.content = jsTrim w ∧ (∃ c ∈ w, isTerm c = true) ∧
          (w.length ≤ 501 ∨ w ∈ sentenceSplit content)) ∧
      ((ss.foldl (sgStep uuid d content) st).currentChunk = [] ∨
        ((∃ c ∈ (ss.foldl (sgStep uuid d content) st).currentChunk, isTerm c = true) ∧
         ((ss.foldl (sgStep uuid d content) st).currentChunk.length ≤ 501 ∨
          (ss.foldl (sgStep uuid d content) st).currentChunk ∈ sentenceSplit content)))
  | [], st, _, hchunks, hcur => ⟨hchunks, hcur⟩
  | s :: ss, st, hss, hchunks, hcur => by
    rw [List.foldl_cons]
    have hs := hss s (List.mem_cons_self _ _)
    have hss' : ∀ t ∈ ss, (∃ c ∈ t, isTerm c = true) ∧ t ∈ sentenceSplit content :=
      fun t ht => hss t (List.mem_cons_of_mem _ ht)
    refine sentenceFold_inv uuid d content ss (sgStep uuid d content st s) hss' ?_ ?_
    · -- the chunks of the stepped state stay good
      intro ch hch
      by_cases hover : 500 < st.currentChunk.length + s.length
      · by_cases hnil : st.currentChunk = []
        · have : ch ∈ st.chunks := by
            have hstep : (sgStep uuid d content st s).chunks = st.chunks := by
              simp only [sgStep, if_pos hover, if_pos hnil]
            rwa [hstep] at hch
          exact hchunks ch this
        · have hstep : (sgStep uuid d content st s).chunks =
              st.chunks ++ [sgChunk uuid d st] := by
            simp only [sgStep, if_pos hover, if_neg hnil]
          rw [hstep] at hch
          rcases List.mem_append.mp hch with h1 | h1
          · exact hchunks ch h1
          · have h2 := List.mem_singleton.mp h1
            subst h2
            rcases hcur with h3 | h3
            · exact absurd h3 hnil
            · exact ⟨rfl, rfl, st.currentChunk, rfl, h3.1, h3.2⟩
      · have hstep : (sgStep uuid d content st s).chunks = st.chunks := by
          simp only [sgStep, if_neg hover]
        rw [hstep] at hch
        exact hchunks ch hch
    · -- the stepped current chunk is good
      by_cases hover : 500 < st.currentChunk.length + s.length
      · have hstep : (sgStep uuid d content st s).currentChunk = s := by
          unfold sgStep
          rw [if_pos hover]
        rw [hstep]
        exact Or.inr ⟨hs.1, Or.inr hs.2⟩
      · have hstep : (sgStep uuid d content st s).currentChunk =
            st.currentChunk ++ ' ' :: s := by
          simp only [sgStep, if_neg hover]
        rw [hstep]
        refine Or.inr ⟨?_, Or.inl ?_⟩
        · obtain ⟨c, hc, hct⟩ := hs.1
          exact ⟨c, List.mem_append.mpr (Or.inr (List.mem_cons_of_mem _ hc)), hct⟩
        · have : st.currentChunk.length + s.length ≤ 500 := Nat.le_of_not_lt hover
          simp only [List.length_append, List.length_cons]
          omega

/-- Every sentence-group chunk is the trim of a word that either groups
consecutive sentences within the 501-character budget or is one single
(arbitrarily long) sentence. -/
theorem sentenceChunks_mem {uuid : Nat → String} {k : Nat} {d : String}
    {content : List Char} {ch : Chunk}
    (h : ch ∈ sentenceChunks uuid k d content) :
    ch.metadata.chunkType = .sentenceGroup ∧ ch.documentId = d ∧
    ∃ w, ch.content = jsTrim w ∧ (∃ c ∈ w, isTerm c = true) ∧
      (w.length ≤ 501 ∨ w ∈ sentenceSplit content) := by
  have hinv := sentenceFold_inv uuid d content (sentenceSplit content)
    { k := k, chunks := [], currentChunk := [], chunkStart := 0 }
    (fun s hs => ⟨sentenceSplit_term hs, hs⟩)
    (by intro ch hch; cases hch)
    (Or.inl rfl)
  rw [sentenceChunks] at h
  set st := (sentenceSplit content).foldl (sgStep uuid d content)
    { k := k, chunks := [], currentChunk := [], chunkStart := 0 } with hst
  by_cases hnil : st.currentChunk = []
  · rw [if_pos hnil] at h
    exact hinv.1 ch h
  · rw [if_neg hnil] at h
    rcases List.mem_append.mp h with h1 | h1
    · exact hinv.1 ch h1
    · have h2 := List.mem_singleton.mp h1
      subst h2
      rcases hinv.2 with h3 | h3
      · exact absurd h3 hnil
      · exact ⟨rfl, rfl, st.currentChunk, rfl, h3.1, h3.2⟩

/-! ## `createChunks` membership and the C3/C4/C5/C9 claims -/

/-- Every chunk `createChunks` returns comes from the paragraph tier, the
densification tier (which runs only under its trigger), or is the single
fallback chunk. -/
theorem createChunks_mem {uuid : Nat → String} {k : Nat} {d : String}
    {content : List Char} {ft : String} {ch : Chunk}
    (h : ch ∈ createChunks uuid k d content ft) :
    ch ∈ paragraphChunks uuid k d content ft ∨
    (ch ∈ sentenceChunks uuid (k + (paragraphChunks uuid k d content ft).length) d content ∧
      (paragraphChunks uuid k d content ft).length < 5 ∧ 1000 < content.length) ∨
    ch = fallbackChunk uuid k d content := by
  rw [createChunks] at h
  by_cases hcond : (paragraphChunks uuid k d content ft).length < 5 ∧ 1000 < content.length
  · rw [if_pos hcond] at h
    set cs2 := paragraphChunks uuid k d content ft ++
      sentenceChunks uuid (k + (paragraphChunks uuid k d content ft).length) d content with hcs2
    by_cases hz : cs2.length = 0
    · rw [if_pos hz] at h
      exact Or.inr (Or.inr (List.mem_singleton.mp h))
    · rw [if_neg hz] at h
      rcases List.mem_append.mp h with h1 | h1
      · exact Or.inl h1
      · exact Or.inr (Or.inl ⟨h1, hcond⟩)
  · rw [if_neg hcond] at h
    by_cases hz : (paragraphChunks uuid k d content ft).length = 0
    · rw [if_pos hz] at h
      exact Or.inr (Or.inr (List.mem_singleton.mp h))
    · rw [if_neg hz] at h
      exact Or.inl h

theorem fallbackChunk_trim_ne_nil (uuid : Nat → String) (k : Nat) (d : String)
    (content : List Char) : jsTrim (fallbackChunk uuid k d content).content ≠ [] := by
  rw [fallbackChunk]
  by_cases h : jsTrim content = []
  · rw [if_pos h]
    show jsTrim fallbackPlaceholder ≠ []
    decide
  · rw [if_neg h]
    exact jsTrim_jsTrim_ne_nil h

/-- C5 (amended).  Every chunk `createChunks` produces (and hence every
chunk the pipeline stores) has non-empty content after trimming; the
10-character minimum-length rule is enforced on the paragraph tier — every
`paragraph` chunk has content of length at least 10 — but not on
`sentence-group` or `fallback` chunks, which may be shorter. -/
theorem chunk_content_nonempty (uuid : Nat → String) (k : Nat) (d : String)
    (content : List Char) (ft : String) (ch : Chunk)
    (h : ch ∈ createChunks uuid k d content ft) :
    jsTrim ch.content ≠ [] ∧
    (ch.metadata.chunkType = .paragraph → 10 ≤ ch.content.length) := by
  rcases createChunks_mem h with h1 | ⟨h1, _⟩ | h1
  · obtain ⟨_, _, p, hlen, hcontent⟩ := paragraphChunks_mem h1
    have h10 : 10 ≤ (jsTrim p).length := Nat.le_of_not_lt hlen
    constructor
    · rw [hcontent]
      apply jsTrim_jsTrim_ne_nil
      intro hnil
      rw [hnil] at h10
      simp at h10
    · intro _
      rw [hcontent]
      exact h10
  · obtain ⟨htype, _, w, hcontent, ⟨c, hc, hct⟩, _⟩ := sentenceChunks_mem h1
    constructor
    · rw [hcontent]
      exact jsTrim_jsTrim_ne_nil (jsTrim_ne_nil hc (term_not_ws hct))
    · intro hpara
      rw [htype] at hpara
      cases hpara
  · subst h1
    refine ⟨fallbackChunk_trim_ne_nil uuid k d content, ?_⟩
    intro hpara
    cases hpara

/-- C5 witness: the fallback chunk built for the two-character text
`hi` satisfies the amended claim. -/
theorem chunk_content_nonempty_witness :
    jsTrim (fallbackChunk uuidA 0 "d" "hi".data).content ≠ [] ∧
    ((fallbackChunk uuidA 0 "d" "hi".data).metadata.chunkType = .paragraph →
      10 ≤ (fallbackChunk uuidA 0 "d" "hi".data).content.length) :=
  chunk_content_nonempty uuidA 0 "d" "hi".data "text"
    (fallbackChunk uuidA 0 "d" "hi".data) (by decide)

/-- C5 counterexample.  The text `hi` produces (and the pipeline stores)
a chunk whose trimmed content is 2 characters long: a candidate shorter
than the 10-character minimum is not dropped when it reaches the fallback
tier, refuting the claim that the rule holds for every `chunkType`. -/
theorem short_chunk_stored_counterexample :
    ∃ ch ∈ createChunks uuidA 0 "d" "hi".data "text",
      (jsTrim ch.content).length < 10 := by
  decide

/-- C3.  Chunking always returns at least one chunk; on text that trims
to nothing it returns exactly the single fallback chunk, whose content is
the fixed placeholder string (the trimmed text being empty) and whose
`chunkType` is `fallback`. -/
theorem chunking_min_guarantee (uuid : Nat → String) (k : Nat) (d : String)
    (content : List Char) (ft : String) :
    1 ≤ (createChunks uuid k d content ft).length ∧
    (jsTrim content = [] →
      createChunks uuid k d content ft = [fallbackChunk uuid k d content] ∧
      (fallbackChunk uuid k d content).content = fallbackPlaceholder ∧
      (fallbackChunk uuid k d content).metadata.chunkType = .fallback) := by
  constructor
  · rw [createChunks]
    split
    · split
      · simp
      · next hz =>
        exact Nat.one_le_iff_ne_zero.mpr hz
    · split
      · simp
      · next hz =>
        exact Nat.one_le_iff_ne_zero.mpr hz
  · intro htrim
    have hws : ∀ c ∈ content, isWS c = true := jsTrim_eq_nil_iff.mp htrim
    have hpara : paragraphChunks uuid k d content ft = [] := paragraphChunks_ws hws
    have hsent : ∀ k' : Nat, sentenceChunks uuid k' d content = [] := by
      intro k'
      rw [sentenceChunks, sentenceSplit_ws hws]
      rfl
    refine ⟨?_, ?_, rfl⟩
    · rw [createChunks, hpara]
      by_cases hcond : ([] : List Chunk).length < 5 ∧ 1000 < content.length
      · rw [if_pos hcond, hsent]
        rfl
      · rw [if_neg hcond]
        rfl
    · rw [fallbackChunk, if_pos htrim]

/-- C3 witness: a whitespace-only text yields exactly the placeholder
fallback chunk. -/
theorem chunking_min_guarantee_witness :
    createChunks uuidA 0 "d" "  ".data "pdf" = [fallbackChunk uuidA 0 "d" "  ".data] ∧
    (fallbackChunk uuidA 0 "d" "  ".data).content = fallbackPlaceholder ∧
    (fallbackChunk uuidA 0 "d" "  ".data).metadata.chunkType = .fallback :=
  (chunking_min_guarantee uuidA 0 "d" "  ".data "pdf").2 (by decide)

/-- C4 (amended).  Under the densification trigger (fewer than 5
paragraph-tier chunks and more than 1000 characters of text) the chunker
re-chunks the full text on sentence boundaries with greedy grouping,
appending the resulting `sentence-group` chunks after the paragraph
chunks; every `sentence-group` chunk either has content of at most 501
characters or is the trim of one single sentence, which may be
arbitrarily long — the 500-character cap of the claim holds neither
exactly (the greedy join admits 501) nor for single over-long
sentences. -/
theorem sentence_group_cap (uuid : Nat → String) (k : Nat) (d : String)
    (content : List Char) (ft : String)
    (h1 : (paragraphChunks uuid k d content ft).length < 5)
    (h2 : 1000 < content.length) :
    (∀ ch ∈ createChunks uuid k d content ft,
      ch.metadata.chunkType = .sentenceGroup →
      (ch.content.length ≤ 501 ∨ ∃ s ∈ sentenceSplit content, ch.content = jsTrim s)) ∧
    (sentenceChunks uuid (k + (paragraphChunks uuid k d content ft).length) d content ≠ [] →
      createChunks uuid k d content ft =
        paragraphChunks uuid k d content ft ++
          sentenceChunks uuid (k + (paragraphChunks uuid k d content ft).length) d content) := by
  constructor
  · intro ch hch hsg
    rcases createChunks_mem hch with hmem | ⟨hmem, _⟩ | hmem
    · obtain ⟨_, htype, _⟩ := paragraphChunks_mem hmem
      rw [htype] at hsg
      cases hsg
    · obtain ⟨_, _, w, hcontent, _, hw⟩ := sentenceChunks_mem hmem
      rcases hw with hw | hw
      · refine Or.inl ?_
        rw [hcontent]
        exact le_trans (jsTrim_length_le w) hw
      · exact Or.inr ⟨w, hw, hcontent⟩
    · subst hmem
      cases hsg
  · intro hne
    have hcond : (paragraphChunks uuid k d content ft).length < 5 ∧
        1000 < content.length := ⟨h1, h2⟩
    have hz : (paragraphChunks uuid k d content ft ++
        sentenceChunks uuid (k + (paragraphChunks uuid k d content ft).length) d
          content).length ≠ 0 := by
      rw [List.length_append]
      have := List.length_pos.mpr hne
      omega
    simp only [createChunks]
    rw [if_pos hcond, if_neg hz]

/-- C4 witness: the amended theorem applied to the 1001-character
one-sentence text, whose paragraph tier yields a single chunk. -/
theorem sentence_group_cap_witness :
    (∀ ch ∈ createChunks uuidA 0 "d" exLongText "text",
      ch.metadata.chunkType = .sentenceGroup →
      (ch.content.length ≤ 501 ∨ ∃ s ∈ sentenceSplit exLongText, ch.content = jsTrim s)) ∧
    (sentenceChunks uuidA (0 + (paragraphChunks uuidA 0 "d" exLongText "text").length) "d"
        exLongText ≠ [] →
      createChunks uuidA 0 "d" exLongText "text" =
        paragraphChunks uuidA 0 "d" exLongText "text" ++
          sentenceChunks uuidA (0 + (paragraphChunks uuidA 0 "d" exLongText "text").length)
            "d" exLongText) :=
  sentence_group_cap uuidA 0 "d" exLongText "text" (by decide) (by decide)

/-- C4 counterexample.  A 1001-character text consisting of one sentence
triggers densification, and the resulting `sentence-group` chunk holds
the whole 1001-character sentence: its content exceeds the claimed
500-character cap. -/
theorem sentence_group_over_cap_counterexample :
    (paragraphChunks uuidA 0 "d" exLongText "text").length < 5 ∧
    1000 < exLongText.length ∧
    ∃ ch ∈ createChunks uuidA 0 "d" exLongText "text",
      ch.metadata.chunkType = .sentenceGroup ∧ 500 < ch.content.length := by
  refine ⟨by decide, by decide, ?_⟩
  decide

/-! ## C9 — chunking as a function of the identifier supply -/

theorem sgStep_eq_of_over_nil {uuid : Nat → String} {d : String}
    {content : List Char} {st : SGState} {s : List Char}
    (hover : 500 < st.currentChunk.length + s.length)
    (hnil : st.currentChunk = []) :
    sgStep uuid d content st s =
      { st with currentChunk := s, chunkStart := indexOfSub content s } := by
  unfold sgStep
  rw [if_pos hover, if_pos hnil]

theorem sgStep_eq_of_over_push {uuid : Nat → String} {d : String}
    {content : List Char} {st : SGState} {s : List Char}
    (hover : 500 < st.currentChunk.length + s.length)
    (hnil : st.currentChunk ≠ []) :
    sgStep uuid d content st s =
      { st with k := st.k + 1, chunks := st.chunks ++ [sgChunk uuid d st],
                currentChunk := s, chunkStart := indexOfSub content s } := by
  unfold sgStep
  rw [if_pos hover, if_neg hnil]

theorem sgStep_eq_of_fits {uuid : Nat → String} {d : String}
    {content : List Char} {st : SGState} {s : List Char}
    (hover : ¬ 500 < st.currentChunk.length + s.length) :
    sgStep uuid d content st s =
      { st with currentChunk := st.currentChunk ++ ' ' :: s } := by
  unfold sgStep
  rw [if_neg hover]

theorem pushParas_stripId (d : String) (pn : Option Nat) (base : List Char) :
    ∀ (paras : List (List Char)) (u1 u2 : Nat → String) (k1 k2 : Nat)
      (acc1 acc2 : List Chunk),
      acc1.map stripId = acc2.map stripId →
      ((pushParas u1 d pn base paras (k1, acc1)).2).map stripId =
        ((pushParas u2 d pn base paras (k2, acc2)).2).map stripId
  | [], _, _, _, _, _, _, h => h
  | p :: ps, u1, u2, k1, k2, acc1, acc2, h => by
    by_cases hp : (jsTrim p).length < 10
    · have e1 : pushParas u1 d pn base (p :: ps) (k1, acc1) =
          pushParas u1 d pn base ps (k1, acc1) := by
        show pushParas u1 d pn base ps (if (jsTrim p).length < 10 then (k1, acc1) else _) = _
        rw [if_pos hp]
      have e2 : pushParas u2 d pn base (p :: ps) (k2, acc2) =
          pushParas u2 d pn base ps (k2, acc2) := by
        show pushParas u2 d pn base ps (if (jsTrim p).length < 10 then (k2, acc2) else _) = _
        rw [if_pos hp]
      rw [e1, e2]
      exact pushParas_stripId d pn base ps u1 u2 k1 k2 acc1 acc2 h
    · have e1 : pushParas u1 d pn base (p :: ps) (k1, acc1) =
          pushParas u1 d pn base ps (k1 + 1, acc1 ++ [paraChunkOf u1 k1 d pn base p]) := by
        show pushParas u1 d pn base ps (if (jsTrim p).length < 10 then (k1, acc1) else _) = _
        rw [if_neg hp]
      have e2 : pushParas u2 d pn base (p :: ps) (k2, acc2) =
          pushParas u2 d pn base ps (k2 + 1, acc2 ++ [paraChunkOf u2 k2 d pn base p]) := by
        show pushParas u2 d pn base ps (if (jsTrim p).length < 10 then (k2, acc2) else _) = _
        rw [if_neg hp]
      rw [e1, e2]
      refine pushParas_stripId d pn base ps u1 u2 (k1 + 1) (k2 + 1) _ _ ?_
      rw [List.map_append, List.map_append, h]
      rfl

theorem paragraphChunks_stripId (d : String) (content : List Char) (ft : String)
    (u1 u2 : Nat → String) (k1 k2 : Nat) :
    (paragraphChunks u1 k1 d content ft).map stripId =
      (paragraphChunks u2 k2 d content ft).map stripId := by
  have main : ∀ (pages : List (Nat × List Char)) (st1 st2 : Nat × List Chunk),
      st1.2.map stripId = st2.2.map stripId →
      ((pages.foldl
        (fun st page => if jsTrim page.2 = [] then st
          else pushParas u1 d (some page.1) page.2 (splitParas page.2) st) st1).2).map stripId =
      ((pages.foldl
        (fun st page => if jsTrim page.2 = [] then st
          else pushParas u2 d (some page.1) page.2 (splitParas page.2) st) st2).2).map stripId := by
    intro pages
    induction pages with
    | nil => intro st1 st2 h; exact h
    | cons page rest ih =>
      intro st1 st2 h
      rw [List.foldl_cons, List.foldl_cons]
      by_cases hpg : jsTrim page.2 = []
      · rw [if_pos hpg, if_pos hpg]
        exact ih st1 st2 h
      · rw [if_neg hpg, if_neg hpg]
        exact ih _ _ (pushParas_stripId d (some page.1) page.2 (splitParas page.2)
          u1 u2 st1.1 st2.1 st1.2 st2.2 h)
  by_cases hft : ft = "pdf"
  · rw [paragraphChunks, paragraphChunks, if_pos hft, if_pos hft]
    exact main ((splitPages content).enum) (k1, []) (k2, []) rfl
  · rw [paragraphChunks, paragraphChunks, if_neg hft, if_neg hft]
    exact pushParas_stripId d none content (splitParas content) u1 u2 k1 k2 [] [] rfl

theorem sentenceFold_stripId (d : String) (content : List Char) :
    ∀ (ss : List (List Char)) (u1 u2 : Nat → String) (st1 st2 : SGState),
      st1.chunks.map stripId = st2.chunks.map stripId →
      st1.currentChunk = st2.currentChunk →
      st1.chunkStart = st2.chunkStart →
      ((ss.foldl (sgStep u1 d content) st1).chunks.map stripId =
        (ss.foldl (sgStep u2 d content) st2).chunks.map stripId) ∧
      (ss.foldl (sgStep u1 d content) st1).currentChunk =
        (ss.foldl (sgStep u2 d content) st2).currentChunk ∧
      (ss.foldl (sgStep u1 d content) st1).chunkStart =
        (ss.foldl (sgStep u2 d content) st2).chunkStart
  | [], _, _, _, _, hc, hcur, hstart => ⟨hc, hcur, hstart⟩
  | s :: ss, u1, u2, st1, st2, hc, hcur, hstart => by
    rw [List.foldl_cons, List.foldl_cons]
    by_cases hover : 500 < st1.currentChunk.length + s.length
    · have hover2 : 500 < st2.currentChunk.length + s.length := by rw [← hcur]; exact hover
      by_cases hnil : st1.currentChunk = []
      · have hnil2 : st2.currentChunk = [] := by rw [← hcur]; exact hnil
        rw [sgStep_eq_of_over_nil hover hnil, sgStep_eq_of_over_nil hover2 hnil2]
        exact sentenceFold_stripId d content ss u1 u2 _ _ hc rfl rfl
      · have hnil2 : st2.currentChunk ≠ [] := by rw [← hcur]; exact hnil
        rw [sgStep_eq_of_over_push hover hnil, sgStep_eq_of_over_push hover2 hnil2]
        refine sentenceFold_stripId d content ss u1 u2 _ _ ?_ rfl rfl
        show (st1.chunks ++ [sgChunk u1 d st1]).map stripId =
          (st2.chunks ++ [sgChunk u2 d st2]).map stripId
        rw [List.map_append, List.map_append, hc]
        have : stripId (sgChunk u1 d st1) = stripId (sgChunk u2 d st2) := by
          simp [sgChunk, stripId, hcur, hstart]
        show _ ++ [stripId (sgChunk u1 d st1)] = _ ++ [stripId (sgChunk u2 d st2)]
        rw [this]
    · have hover2 : ¬ 500 < st2.currentChunk.length + s.length := by rw [← hcur]; exact hover
      rw [sgStep_eq_of_fits hover, sgStep_eq_of_fits hover2]
      refine sentenceFold_stripId d content ss u1 u2 _ _ hc ?_ hstart
      show st1.currentChunk ++ ' ' :: s = st2.currentChunk ++ ' ' :: s
      rw [hcur]

theorem sentenceChunks_stripId (d : String) (content : List Char)
    (u1 u2 : Nat → String) (k1 k2 : Nat) :
    (sentenceChunks u1 k1 d content).map stripId =
      (sentenceChunks u2 k2 d content).map stripId := by
  obtain ⟨hc, hcur, hstart⟩ := sentenceFold_stripId d content (sentenceSplit content)
    u1 u2 { k := k1, chunks := [], currentChunk := [], chunkStart := 0 }
    { k := k2, chunks := [], currentChunk := [], chunkStart := 0 } rfl rfl rfl
  rw [sentenceChunks, sentenceChunks]
  by_cases hnil : ((sentenceSplit content).foldl (sgStep u1 d content)
      { k := k1, chunks := [], currentChunk := [], chunkStart := 0 }).currentChunk = []
  · rw [if_pos hnil, if_pos (hcur ▸ hnil)]
    exact hc
  · rw [if_neg hnil, if_neg (hcur ▸ hnil)]
    rw [List.map_append, List.map_append, hc]
    have heq : stripId (sgChunk u1 d ((sentenceSplit content).foldl (sgStep u1 d content)
        { k := k1, chunks := [], currentChunk := [], chunkStart := 0 })) =
        stripId (sgChunk u2 d ((sentenceSplit content).foldl (sgStep u2 d content)
        { k := k2, chunks := [], currentChunk := [], chunkStart := 0 })) := by
      simp [sgChunk, stripId, hcur, hstart]
    show _ ++ [stripId _] = _ ++ [stripId _]
    rw [heq]

/-- C9 (amended).  Chunking is a pure function of `(documentId, text,
kind)` up to the freshly drawn chunk identifiers: two runs with any two
identifier supplies (and counters) produce chunk sequences of the same
length with identical contents and metadata in the same order; only the
`id` fields — drawn from `uuidv4()` — differ between runs. -/
theorem chunking_pure_up_to_ids (u1 u2 : Nat → String) (k1 k2 : Nat)
    (d : String) (content : List Char) (ft : String) :
    (createChunks u1 k1 d content ft).map stripId =
      (createChunks u2 k2 d content ft).map stripId := by
  have hp := paragraphChunks_stripId d content ft u1 u2 k1 k2
  have hlen : (paragraphChunks u1 k1 d content ft).length =
      (paragraphChunks u2 k2 d content ft).length := by
    have := congrArg List.length hp
    simpa using this
  have hfb : stripId (fallbackChunk u1 k1 d content) =
      stripId (fallbackChunk u2 k2 d content) := rfl
  simp only [createChunks]
  by_cases hcond : (paragraphChunks u1 k1 d content ft).length < 5 ∧
      1000 < content.length
  · have hcond2 : (paragraphChunks u2 k2 d content ft).length < 5 ∧
        1000 < content.length := by rw [← hlen]; exact hcond
    rw [if_pos hcond, if_pos hcond2]
    have hs := sentenceChunks_stripId d content u1 u2
      (k1 + (paragraphChunks u1 k1 d content ft).length)
      (k2 + (paragraphChunks u2 k2 d content ft).length)
    have happ : ((paragraphChunks u1 k1 d content ft ++
        sentenceChunks u1 (k1 + (paragraphChunks u1 k1 d content ft).length) d
          content).map stripId) =
        ((paragraphChunks u2 k2 d content ft ++
        sentenceChunks u2 (k2 + (paragraphChunks u2 k2 d content ft).length) d
          content).map stripId) := by
      rw [List.map_append, List.map_append, hp, hs]
    have hlen2 : (paragraphChunks u1 k1 d content ft ++
        sentenceChunks u1 (k1 + (paragraphChunks u1 k1 d content ft).length) d
          content).length =
        (paragraphChunks u2 k2 d content ft ++
        sentenceChunks u2 (k2 + (paragraphChunks u2 k2 d content ft).length) d
          content).length := by
      have := congrArg List.length happ
      simpa using this
    by_cases hz : (paragraphChunks u1 k1 d content ft ++
        sentenceChunks u1 (k1 + (paragraphChunks u1 k1 d content ft).length) d
          content).length = 0
    · rw [if_pos hz, if_pos (hlen2 ▸ hz)]
      show [stripId (fallbackChunk u1 k1 d content)] = [stripId (fallbackChunk u2 k2 d content)]
      rw [hfb]
    · rw [if_neg hz, if_neg (hlen2 ▸ hz)]
      exact happ
  · have hcond2 : ¬ ((paragraphChunks u2 k2 d content ft).length < 5 ∧
        1000 < content.length) := by rw [← hlen]; exact hcond
    rw [if_neg hcond, if_neg hcond2]
    by_cases hz : (paragraphChunks u1 k1 d content ft).length = 0
    · rw [if_pos hz, if_pos (hlen ▸ hz)]
      show [stripId (fallbackChunk u1 k1 d content)] = [stripId (fallbackChunk u2 k2 d content)]
      rw [hfb]
    · rw [if_neg hz, if_neg (hlen ▸ hz)]
      exact hp

/-- C9 counterexample.  Two runs of the chunker on the same text and kind
with different identifier draws return different chunk records (the ids
differ), refuting strict run-to-run equality of the sequences. -/
theorem chunking_not_identical_counterexample :
    createChunks uuidA 0 "d" "hi".data "text" ≠
      createChunks uuidB 0 "d" "hi".data "text" := by
  decide

end DocChat
